import Mathlib

/-!
# DrishtiAI — the `LLMInference` conversational driver

A shallow embedding of `smollm/src/main/cpp/LLMInference.cpp`.

* C strings (`const char *`) and `std::string` values are lists of bytes (`Nat`, each
  meant to lie in `[0, 256)`).  A `std::string` may hold NUL bytes; wherever the source
  goes through `c_str()` / `strdup` / a `const char *` parameter, only the bytes before
  the first NUL are seen, which is what `c_str` computes.
* Native handles (`_ctx`, `_model`, `_sampler`, `_chatTemplate`) are booleans (non-null).
  `_batch` is an `Option` (null or the list of entries `0 .. n_tokens-1`).
* The llama.cpp / mtmd backend is external.  Every value it hands back during one call
  of a member function is an explicit argument of the embedded function (`StepReply`,
  `StartReply`, `StopReply`, `ChatReply`), so a theorem quantified over these records is
  quantified over every backend behaviour.
* A member function that can `throw` returns the state reached together with an
  `Outcome`; the object survives the exception with the mutations made so far.
-/

namespace LLMInference

/-! ## Bytes, C strings, machine integers -/

/-- The bytes of a `std::string` as seen through `c_str()`: everything before the first NUL. -/
def c_str (s : List Nat) : List Nat := s.takeWhile (fun b => b != 0)

/-- `strdup(p)`: a fresh copy of the C string `p`. -/
def strdup (p : List Nat) : List Nat := c_str p

/-- Conversion of an unsigned value to `int` / `int32_t` (`llama_pos`): reduction modulo `2^32`
into `[-2^31, 2^31)`. -/
def toInt32 (n : Nat) : Int :=
  if n % 4294967296 < 2147483648 then ((n % 4294967296 : Nat) : Int)
  else ((n % 4294967296 : Nat) : Int) - 4294967296

/-- The literal `"[EOG]"`. -/
def EOG : List Nat := [91, 69, 79, 71, 93]

/-- The literal `"user"`. -/
def roleUser : List Nat := [117, 115, 101, 114]

/-- The literal `"assistant"`. -/
def roleAssistant : List Nat := [97, 115, 115, 105, 115, 116, 97, 110, 116]

/-- The literal `"system"`. -/
def roleSystem : List Nat := [115, 121, 115, 116, 101, 109]

/-- The system prompt installed by `loadMultimodalModel` (line 266), as bytes. -/
def multimodalSystemPrompt : List Nat :=
  ("You are a helpful assistant that describes images and scenes accurately. " ++
    "Look at the visual input provided before answering.").toList.map Char.toNat

/-! ## Data model -/

/-- A `llama_chat_message`: two owned C strings. -/
structure llama_chat_message where
  role : List Nat
  content : List Nat
  deriving DecidableEq, Repr

/-- One entry of a `llama_batch` as filled by `common_batch_add(batch, id, pos, {seq}, logits)`. -/
structure BatchEntry where
  token : Int
  pos : Int
  seq_id : Nat
  logits : Bool
  deriving DecidableEq, Repr

/-- The `ImageFrame` record pushed on `videoFrames`. -/
structure ImageFrame where
  width : Int
  height : Int
  channels : Int
  data : List Nat
  deriving DecidableEq, Repr

/-- What a member function hands back: a returned value, or a thrown `std::runtime_error`. -/
inductive Outcome (α : Type) where
  | ok (v : α)
  | threw (what : String)
  deriving DecidableEq, Repr

/-- The fields of an `LLMInference` object.  `contextSize` is `llama_n_ctx(_ctx)`;
`formattedSize` is `_formattedMessages.size()` (the rendered characters themselves only
feed the tokenizer, which is external); `samplerAccepted` is the state of the sampler
chain `_sampler`: the tokens committed with `llama_sampler_accept` since the last
`llama_sampler_reset`. -/
structure Engine where
  _ctx : Bool
  _model : Bool
  _sampler : Bool
  _mtmd_ctx : Bool
  _chatTemplate : Bool
  contextSize : Nat
  _batch : Option (List BatchEntry)
  _messages : List llama_chat_message
  formattedSize : Nat
  _prevLen : Int
  _promptTokens : List Int
  _response : List Nat
  _cacheResponseTokens : List Nat
  _nCtxUsed : Int
  _currToken : Int
  _storeChats : Bool
  _responseGenerationTime : Int
  _responseNumTokens : Int
  is_multimodal_model : Bool
  videoFrames : List ImageFrame
  samplerAccepted : List Int
  deriving DecidableEq, Repr

/-! ## `addChatMessage` -/

/-- `LLMInference::addChatMessage(message, role)`: `_messages.push_back({strdup(role), strdup(message)})`. -/
def addChatMessage (s : Engine) (message role : List Nat) : Engine :=
  { s with _messages := s._messages ++ [⟨strdup role, strdup message⟩] }

/-! ## `loadModel`, `loadMultimodalModel` -/

/-- What the backend returns while a model is loaded: whether `llama_model_load_from_file`,
`llama_init_from_model` and `mtmd_init_from_file` gave non-null handles, the value of
`llama_n_ctx(_ctx)`, and whether `llama_model_chat_template` is non-null. -/
structure LoadReply where
  modelLoaded : Bool
  contextCreated : Bool
  visionCreated : Bool
  nCtx : Nat
  modelHasTemplate : Bool
  deriving DecidableEq, Repr

/-- `LLMInference::loadModel(..., storeChats, contextSize, chatTemplate, ...)`; `chatTemplate`
is `none` for a null pointer. -/
def loadModel (s : Engine) (storeChats : Bool) (chatTemplate : Option (List Nat))
    (rp : LoadReply) : Engine × Outcome Unit :=
  let s1 : Engine := { s with _model := rp.modelLoaded }
  if !s1._model then (s1, .threw "loadModel() failed")
  else
    let s2 : Engine := { s1 with _ctx := rp.contextCreated, contextSize := rp.nCtx }
    if !s2._ctx then (s2, .threw "llama_init_from_model() failed")
    else
      let s3 : Engine :=
        { s2 with _sampler := true, samplerAccepted := [], formattedSize := rp.nCtx, _messages := [] }
      let tmpl : Bool := match chatTemplate with
        | none => rp.modelHasTemplate
        | some _ => true
      ({ s3 with _chatTemplate := tmpl, _storeChats := storeChats }, .ok ())

/-- `LLMInference::loadMultimodalModel(...)`. -/
def loadMultimodalModel (s : Engine) (rp : LoadReply) : Engine × Bool :=
  let s1 : Engine := { s with _model := rp.modelLoaded }
  if !s1._model then (s1, false)
  else
    let s2 : Engine := { s1 with _mtmd_ctx := rp.visionCreated }
    if !s2._mtmd_ctx then (s2, false)
    else
      let s3 : Engine := { s2 with _ctx := rp.contextCreated, contextSize := rp.nCtx }
      if !s3._ctx then (s3, false)
      else
        let s4 : Engine :=
          { s3 with _sampler := true, samplerAccepted := [], formattedSize := rp.nCtx, _messages := [] }
        let s5 := addChatMessage s4 multimodalSystemPrompt roleSystem
        ({ s5 with _chatTemplate := rp.modelHasTemplate, _storeChats := false,
                   is_multimodal_model := true }, true)

/-- `LLMInference::getContextSizeUsed`. -/
def getContextSizeUsed (s : Engine) : Int := s._nCtxUsed

/-! ## `_isValidUtf8` -/

/-- The loops of `LLMInference::_isValidUtf8`, reading a NUL-terminated buffer.  The first
argument is the number of iterations the inner `for` loop still has to run (`num - i`);
`0` means control is at the head of the outer `while`.  The list is the bytes from
`bytes` up to the end of the `std::string`; past its end the terminator `0x00` is read. -/
def utf8Scan : Nat → List Nat → Bool
  | 0, [] => true
  | 0, b :: bs =>
    if b = 0 then true
    else if b &&& 0x80 = 0x00 then utf8Scan 0 bs
    else if b &&& 0xE0 = 0xC0 then utf8Scan 1 bs
    else if b &&& 0xF0 = 0xE0 then utf8Scan 2 bs
    else if b &&& 0xF8 = 0xF0 then utf8Scan 3 bs
    else false
  | _ + 1, [] => false
  | k + 1, b :: bs =>
    if b &&& 0xC0 ≠ 0x80 then false else utf8Scan k bs

/-- `LLMInference::_isValidUtf8(response)` for a non-null `response` pointing at the
NUL-terminated bytes `response`. -/
def _isValidUtf8 (response : List Nat) : Bool := utf8Scan 0 response

/-! ## `startCompletion` -/

/-- What the backend returns during one `startCompletion`: the two results of
`llama_chat_apply_template` (the second is only asked for after a resize) and the
tokens `common_tokenize` produces for the prompt delta. -/
structure StartReply where
  newLen1 : Int
  newLen2 : Int
  tokens : List Int
  deriving DecidableEq, Repr

/-- The loop `for i in 0 .. n-1: common_batch_add(batch, tokens[i], (llama_pos)i, {0}, i == n-1)`,
started at index `i` with `n` the total number of prompt tokens. -/
def promptBatchFrom (n : Nat) : Nat → List Int → List BatchEntry
  | _, [] => []
  | i, t :: ts => ⟨t, toInt32 i, 0, i == n - 1⟩ :: promptBatchFrom n (i + 1) ts

/-- The batch `startCompletion` builds from `_promptTokens`. -/
def promptBatch (tokens : List Int) : List BatchEntry :=
  promptBatchFrom tokens.length 0 tokens

/-- The state at the point where `startCompletion` has appended the user message (line 101),
before the template is rendered. -/
def startCompletionHistory (s : Engine) (query : List Nat) : Engine :=
  let s1 : Engine :=
    if !s._storeChats then
      { s with _prevLen := 0, _messages := [], formattedSize := s.contextSize }
    else s
  let s2 : Engine := { s1 with _responseGenerationTime := 0, _responseNumTokens := 0 }
  addChatMessage s2 query roleUser

/-- `LLMInference::startCompletion(query)`. -/
def startCompletion (s : Engine) (query : List Nat) (rp : StartReply) : Engine × Outcome Unit :=
  let s3 := startCompletionHistory s query
  let resized : Bool := decide (rp.newLen1 > toInt32 s3.formattedSize)
  let s4 : Engine := if resized then { s3 with formattedSize := rp.newLen1.toNat } else s3
  let newLen : Int := if resized then rp.newLen2 else rp.newLen1
  if newLen < 0 then (s4, .threw "llama_chat_apply_template() failed")
  else
    ({ s4 with _promptTokens := rp.tokens, _batch := some (promptBatch rp.tokens) }, .ok ())

/-! ## `completionLoop` -/

/-- What the backend returns during one `completionLoop`: the status of `llama_decode`
(asked for only when the batch is non-empty), `llama_memory_seq_pos_max(mem, 0)`, the
token drawn by `llama_sampler_sample`, `llama_vocab_is_eog` of that token, its piece
from `common_token_to_piece`, and the microseconds between the two `ggml_time_us` calls. -/
structure StepReply where
  decodeRes : Int
  posMax : Int
  token : Int
  isEog : Bool
  piece : List Nat
  elapsed : Int
  deriving DecidableEq, Repr

/-- `piece.erase(std::remove(piece.begin(), piece.end(), '\r'), piece.end())`. -/
def removeCR (piece : List Nat) : List Nat := piece.filter (fun b => b != 13)

/-- Lines 180–199 of `completionLoop`: detokenise, strip carriage returns, append to the
pending buffer, queue the sampled token for the next decode, then flush or hold. -/
def detokenizeAndEmit (s : Engine) (rp : StepReply) : Engine × Outcome (List Nat) :=
  let piece := removeCR rp.piece
  let cache := s._cacheResponseTokens ++ piece
  let s1 : Engine :=
    { s with
      _responseGenerationTime := s._responseGenerationTime + rp.elapsed
      _responseNumTokens := s._responseNumTokens + 1
      _cacheResponseTokens := cache
      _batch := s._batch.map (fun b => b ++ [⟨s._currToken, s._nCtxUsed, 0, true⟩]) }
  if _isValidUtf8 (c_str cache) then
    ({ s1 with _response := s1._response ++ cache, _cacheResponseTokens := [] }, .ok cache)
  else
    (s1, .ok [])

/-- Lines 163–199 of `completionLoop`: everything after the decode block. -/
def sampleAndEmit (s : Engine) (rp : StepReply) : Engine × Outcome (List Nat) :=
  let s1 : Engine := { s with _nCtxUsed := rp.posMax + 1 }
  if s1._nCtxUsed ≥ toInt32 s1.contextSize then (s1, .ok EOG)
  else
    let s2 : Engine :=
      { s1 with _currToken := rp.token, samplerAccepted := s1.samplerAccepted ++ [rp.token] }
    if rp.isEog then
      let s3 := addChatMessage s2 (c_str s2._response) roleAssistant
      ({ s3 with _response := [] }, .ok EOG)
    else detokenizeAndEmit s2 rp

/-- `LLMInference::completionLoop()`. -/
def completionLoop (s : Engine) (rp : StepReply) : Engine × Outcome (List Nat) :=
  if !s._ctx || s._batch.isNone || !s._sampler then (s, .ok EOG)
  else
    match s._batch with
    | none => (s, .ok EOG)
    | some batch =>
      if batch.length > 0 then
        if rp.decodeRes < 0 then (s, .threw "llama_decode() failed")
        else if rp.decodeRes > 0 then (s, .ok EOG)
        else sampleAndEmit { s with _batch := some [] } rp
      else sampleAndEmit s rp

/-! ## `stopCompletion` -/

/-- What the backend returns during one `stopCompletion`: the length reported by the
probing call `llama_chat_apply_template(.., false, nullptr, 0)`. -/
structure StopReply where
  prevLen : Int
  deriving DecidableEq, Repr

/-- `LLMInference::stopCompletion()`. -/
def stopCompletion (s : Engine) (rp : StopReply) : Engine × Outcome Unit :=
  let s1 : Engine :=
    if s._storeChats && !s._response.isEmpty then
      addChatMessage s (c_str s._response) roleAssistant
    else s
  let s2 : Engine := { s1 with _response := [] }
  if !s2.is_multimodal_model && s2._chatTemplate then
    let s3 : Engine := { s2 with _prevLen := rp.prevLen }
    if s3._prevLen < 0 then (s3, .threw "llama_chat_apply_template() failed")
    else (s3, .ok ())
  else (s2, .ok ())

/-! ## Multimodal path -/

/-- `LLMInference::addVideoFrame(pixel_data, width, height, channels)`; `pixel_data` points at
the bytes `pixel_data`, of which the first `width * height * channels` are copied. -/
def addVideoFrame (s : Engine) (pixel_data : List Nat) (width height channels : Int) : Engine :=
  if channels ≠ 3 then s
  else
    let frame : ImageFrame :=
      { width := width, height := height, channels := channels,
        data := pixel_data.take (width * height * channels).toNat }
    { s with videoFrames := s.videoFrames ++ [frame] }

/-- `LLMInference::clearVideoFrames()`. -/
def clearVideoFrames (s : Engine) : Engine := { s with videoFrames := [] }

/-- `LLMInference::getFrameCount()`: `(int) videoFrames.size()`. -/
def getFrameCount (s : Engine) : Int := toInt32 s.videoFrames.length

/-- What the backend returns during one `buildMultimodalChat`: the bytes of
`mtmd_default_marker()`, the two results of `llama_chat_apply_template`, whether
`mtmd_input_chunks_init` returned a non-null pointer, the status of `mtmd_tokenize`,
the status of `mtmd_helper_eval_chunks` and the position `n_past` it writes. -/
structure ChatReply where
  marker : List Nat
  newLen1 : Int
  newLen2 : Int
  chunksInit : Bool
  tokenizeRes : Int
  evalRes : Int
  nPast : Int
  deriving DecidableEq, Repr

/-- A message that `remove_if` keeps: `strcmp(m.role, "system") != 0` is false. -/
def isSystem (m : llama_chat_message) : Bool := !(decide (c_str m.role ≠ roleSystem))

/-- The loop `for i in 0 .. videoFrames.size()-1: markers += mtmd_default_marker()`. -/
def markersFor (marker : List Nat) : Nat → List Nat
  | 0 => []
  | n + 1 => markersFor marker n ++ c_str marker

/-- The state of `buildMultimodalChat` at line 315, once the guard is passed: batch
emptied, sampler reset, non-system messages erased, generation buffer cleared, and the
new user message appended. -/
def buildMultimodalHistory (s : Engine) (text_prompt : List Nat) (marker : List Nat) : Engine :=
  let s1 : Engine := { s with _batch := some [], samplerAccepted := [] }
  let s2 : Engine := { s1 with _messages := s1._messages.filter isSystem }
  let s3 : Engine := { s2 with _response := [], _cacheResponseTokens := [] }
  let markers := markersFor marker s3.videoFrames.length
  let user_content := markers ++ [10] ++ c_str text_prompt
  addChatMessage s3 (c_str user_content) roleUser

/-- `LLMInference::buildMultimodalChat(text_prompt)`. -/
def buildMultimodalChat (s : Engine) (text_prompt : List Nat) (rp : ChatReply) : Engine × Bool :=
  if !s.is_multimodal_model || !s._ctx || s.videoFrames.isEmpty then (s, false)
  else
    let s4 := buildMultimodalHistory s text_prompt rp.marker
    let resized : Bool := decide (rp.newLen1 > toInt32 s4.formattedSize)
    let s5 : Engine := if resized then { s4 with formattedSize := rp.newLen1.toNat } else s4
    let newLen : Int := if resized then rp.newLen2 else rp.newLen1
    if newLen < 0 then (s5, false)
    else if !rp.chunksInit then (s5, false)
    else if rp.tokenizeRes ≠ 0 then (s5, false)
    else if rp.evalRes ≠ 0 then (s5, false)
    else ({ s5 with _nCtxUsed := rp.nPast }, true)

/-! ## The caller's loop -/

/-- How a turn pulled by the caller came to its end. -/
inductive TurnEnd where
  | sentinel
  | raised
  | unfinished
  deriving DecidableEq, Repr

/-- A turn as the caller sees it: the engine it is left with, the chunks received before
the end marker, how the loop ended, and whether the call that ended it had sampled an
end-of-generation token. -/
structure Turn where
  final : Engine
  chunks : List (List Nat)
  ending : TurnEnd
  eogToken : Bool
  deriving DecidableEq, Repr

/-- The call `completionLoop` on `s` gets as far as `llama_sampler_sample` (line 171): the
handles are there, the batch was empty or decoded with status `0`, and the context is
not full. -/
def reachesSampling (s : Engine) (rp : StepReply) : Bool :=
  s._ctx && s._sampler &&
    (match s._batch with
      | none => false
      | some batch => batch.isEmpty || decide (rp.decodeRes = 0)) &&
    decide (rp.posMax + 1 < toInt32 s.contextSize)

/-- The engine of a call that reached sampling, right after `llama_sampler_accept`
(line 172): batch consumed, counter resynchronised, token drawn and committed. -/
def afterSampling (s : Engine) (rp : StepReply) : Engine :=
  { s with _batch := some [], _nCtxUsed := rp.posMax + 1, _currToken := rp.token,
           samplerAccepted := s.samplerAccepted ++ [rp.token] }

/-- The loop of a caller that calls `completionLoop` until it sees `"[EOG]"` (or until an
exception leaves the loop), one backend reply per call. -/
def runTurn : Engine → List StepReply → Turn
  | s, [] => ⟨s, [], .unfinished, false⟩
  | s, rp :: rps =>
    match completionLoop s rp with
    | (s1, .threw _) => ⟨s1, [], .raised, false⟩
    | (s1, .ok chunk) =>
      if chunk = EOG then ⟨s1, [], .sentinel, reachesSampling s rp && rp.isEog⟩
      else
        let t := runTurn s1 rps
        ⟨t.final, chunk :: t.chunks, t.ending, t.eogToken⟩

/-- The pending buffer is empty or fails the engine's validity test. -/
def PendingHeld (s : Engine) : Prop :=
  s._cacheResponseTokens = [] ∨ _isValidUtf8 (c_str s._cacheResponseTokens) = false

/-- One call made by the host on an engine. -/
inductive Call where
  | start (query : List Nat) (rp : StartReply)
  | step (rp : StepReply)
  | stop (rp : StopReply)
  | chat (text_prompt : List Nat) (rp : ChatReply)
  | frame (pixel_data : List Nat) (width height channels : Int)
  | clearFrames
  deriving DecidableEq, Repr

/-- The engine after one call. -/
def perform (s : Engine) : Call → Engine
  | .start q rp => (startCompletion s q rp).1
  | .step rp => (completionLoop s rp).1
  | .stop rp => (stopCompletion s rp).1
  | .chat t rp => (buildMultimodalChat s t rp).1
  | .frame p w h c => addVideoFrame s p w h c
  | .clearFrames => clearVideoFrames s

/-- The engine after a sequence of calls. -/
def performAll (s : Engine) (calls : List Call) : Engine := calls.foldl perform s

/-! ## The backend memory of sequence 0

Context accounting is specified against a backend that answers
`llama_memory_seq_pos_max(mem, 0)` with the highest position decoded so far.  The
definitions below thread that one number next to the engine; everything else the
backend returns stays a free reply. -/

/-- The highest position in the cache once `batch` has been decoded on top of a cache whose
highest position was `top` (`-1` for an empty cache). -/
def decodedMax (top : Int) (batch : List BatchEntry) : Int :=
  batch.foldl (fun m e => max m e.pos) top

/-- The highest cached position after the decode block (lines 151–161) of a `completionLoop`
call: the batch is decoded when the handles exist, it is non-empty and the status is `0`. -/
def cacheAfterDecode (s : Engine) (top : Int) (rp : StepReply) : Int :=
  if s._ctx && s._sampler then
    match s._batch with
    | none => top
    | some batch => if rp.decodeRes = 0 then decodedMax top batch else top
  else top

/-- `completionLoop` against that memory: the reply's `posMax` is the highest cached
position after this call's decode.  Returns the engine, the outcome and the new highest
position. -/
def completionLoopOnCache (s : Engine) (top : Int) (rp : StepReply) :
    (Engine × Outcome (List Nat)) × Int :=
  (completionLoop s { rp with posMax := cacheAfterDecode s top rp }, cacheAfterDecode s top rp)

/-- A call of a run without cache reset. -/
inductive TurnCall where
  | start (query : List Nat) (rp : StartReply)
  | step (rp : StepReply)
  deriving DecidableEq, Repr

/-- The engine and the highest cached position after one call. -/
def performOnCache (st : Engine × Int) : TurnCall → Engine × Int
  | .start q rp => ((startCompletion st.1 q rp).1, st.2)
  | .step rp => ((completionLoopOnCache st.1 st.2 rp).1.1, (completionLoopOnCache st.1 st.2 rp).2)

/-- The engine and the highest cached position after a sequence of calls. -/
def performAllOnCache (st : Engine × Int) (calls : List TurnCall) : Engine × Int :=
  calls.foldl performOnCache st

/-- The calls of a run of successful decodes on a backend whose batch capacity is the
context size (`ctx_params.n_batch = contextSize`, line 43): a prompt has at most
`contextSize` tokens, and every decode status is `0`. -/
def successfulCall (contextSize : Nat) : TurnCall → Prop
  | .start _ rp => rp.tokens.length ≤ contextSize
  | .step rp => rp.decodeRes = 0

/-- Engine and cache agree: the counter is not ahead of the cache, the cache holds no
position from `contextSize` on, and neither does the batch waiting to be decoded. -/
def CacheInv (s : Engine) (top : Int) : Prop :=
  s._nCtxUsed ≤ top + 1 ∧ top + 1 ≤ (s.contextSize : Int) ∧
    ∀ batch, s._batch = some batch → ∀ e ∈ batch, e.pos + 1 ≤ (s.contextSize : Int)

/-! ## Well-formed UTF-8 (Unicode Standard, Table 3-7) -/

/-- A continuation byte `80..BF`. -/
def isTail (b : Nat) : Bool := decide (0x80 ≤ b ∧ b ≤ 0xBF)

/-- A two-byte sequence `C2..DF 80..BF`. -/
def seq2 (b0 b1 : Nat) : Bool := decide (0xC2 ≤ b0 ∧ b0 ≤ 0xDF) && isTail b1

/-- A three-byte sequence: `E0 A0..BF`, `E1..EC 80..BF`, `ED 80..9F`, `EE..EF 80..BF`, each
followed by one continuation byte. -/
def seq3 (b0 b1 b2 : Nat) : Bool :=
  (decide (b0 = 0xE0 ∧ 0xA0 ≤ b1 ∧ b1 ≤ 0xBF) ||
   decide (0xE1 ≤ b0 ∧ b0 ≤ 0xEC ∧ 0x80 ≤ b1 ∧ b1 ≤ 0xBF) ||
   decide (b0 = 0xED ∧ 0x80 ≤ b1 ∧ b1 ≤ 0x9F) ||
   decide (0xEE ≤ b0 ∧ b0 ≤ 0xEF ∧ 0x80 ≤ b1 ∧ b1 ≤ 0xBF)) && isTail b2

/-- A four-byte sequence: `F0 90..BF`, `F1..F3 80..BF`, `F4 80..8F`, each followed by two
continuation bytes. -/
def seq4 (b0 b1 b2 b3 : Nat) : Bool :=
  (decide (b0 = 0xF0 ∧ 0x90 ≤ b1 ∧ b1 ≤ 0xBF) ||
   decide (0xF1 ≤ b0 ∧ b0 ≤ 0xF3 ∧ 0x80 ≤ b1 ∧ b1 ≤ 0xBF) ||
   decide (b0 = 0xF4 ∧ 0x80 ≤ b1 ∧ b1 ≤ 0x8F)) && isTail b2 && isTail b3

/-- Well-formed UTF-8 in the sense of the Unicode Standard: the byte string is a
concatenation of sequences of Table 3-7 (no overlong forms, no surrogates, nothing
above `U+10FFFF`, no truncated sequence). -/
def wellFormedUtf8 : List Nat → Bool
  | [] => true
  | b0 :: t0 =>
    if b0 ≤ 0x7F then wellFormedUtf8 t0
    else
      match t0 with
      | [] => false
      | b1 :: t1 =>
        if seq2 b0 b1 then wellFormedUtf8 t1
        else
          match t1 with
          | [] => false
          | b2 :: t2 =>
            if seq3 b0 b1 b2 then wellFormedUtf8 t2
            else
              match t2 with
              | [] => false
              | b3 :: t3 => if seq4 b0 b1 b2 b3 then wellFormedUtf8 t3 else false

/-- All the pieces of a list of backend replies, in order, as one byte string. -/
def pieceStream (rps : List StepReply) : List Nat := (rps.map (fun rp => rp.piece)).flatten

/-! ## Concrete engines -/

/-- Modelled from the spec: the member initialisers of `LLMInference.h`, which is not among
the sources.  An object as constructed: null handles, empty strings and containers,
history retention off, counters at zero. -/
def blank : Engine :=
  { _ctx := false, _model := false, _sampler := false, _mtmd_ctx := false,
    _chatTemplate := false, contextSize := 0, _batch := none, _messages := [],
    formattedSize := 0, _prevLen := 0, _promptTokens := [], _response := [],
    _cacheResponseTokens := [], _nCtxUsed := 0, _currToken := 0, _storeChats := false,
    _responseGenerationTime := 0, _responseNumTokens := 0, is_multimodal_model := false,
    videoFrames := [], samplerAccepted := [] }

/-- A text engine right after a successful `loadModel` with the given retention flag and
context size. -/
def textEngine (storeChats : Bool) (contextSize : Nat) : Engine :=
  (loadModel blank storeChats none ⟨true, true, false, contextSize, true⟩).1

/-- A multimodal engine right after a successful `loadMultimodalModel`. -/
def visionEngine (contextSize : Nat) : Engine :=
  (loadMultimodalModel blank ⟨true, true, true, contextSize, true⟩).1

/-- The bytes of `"<__media__>"`, the marker of the mtmd library. -/
def mediaMarker : List Nat := [60, 95, 95, 109, 101, 100, 105, 97, 95, 95, 62]

/-- The bytes of `"Describe"`. -/
def describeText : List Nat := [68, 101, 115, 99, 114, 105, 98, 101]

/-- The bytes of `"Hello"`. -/
def helloText : List Nat := [72, 101, 108, 108, 111]

end LLMInference

namespace LLMInference

/-! ## Basic facts -/

theorem c_str_of_no_nul (l : List Nat) (h : 0 ∉ l) : c_str l = l := by
  unfold c_str
  rw [List.takeWhile_eq_self_iff]
  intro b hb
  have : b ≠ 0 := fun e => h (e ▸ hb)
  simpa using this

theorem c_str_no_nul (l : List Nat) : 0 ∉ c_str l := by
  unfold c_str
  intro h
  have := List.mem_takeWhile_imp h
  simp at this

theorem c_str_idem (l : List Nat) : c_str (c_str l) = c_str l :=
  c_str_of_no_nul _ (c_str_no_nul l)

theorem toInt32_le (n : Nat) : toInt32 n ≤ (n : Int) := by
  unfold toInt32
  split <;> omega

theorem toInt32_of_lt (n : Nat) (h : n < 2147483648) : toInt32 n = (n : Int) := by
  unfold toInt32
  have : n % 4294967296 = n := Nat.mod_eq_of_lt (by omega)
  rw [this]
  simp [h]

/-! ## C8 — frame filtering -/

/-- C8: `addVideoFrame` with `channels != 3` leaves the engine (hence the frame queue)
unchanged; with `channels = 3` it appends one frame carrying the given width and height
after the frames already queued, so the length grows by exactly one; `getFrameCount`
returns the queue length (the `(int)` conversion being exact below `2^31`), and after
`clearVideoFrames` it returns `0`. -/
theorem C8_frame_filtering (s : Engine) (pixel_data : List Nat) (width height channels : Int)
    (hsize : s.videoFrames.length < 2147483648) :
    (channels ≠ 3 → addVideoFrame s pixel_data width height channels = s) ∧
    (∃ f : ImageFrame, f.width = width ∧ f.height = height ∧ f.channels = 3 ∧
      (addVideoFrame s pixel_data width height 3).videoFrames = s.videoFrames ++ [f]) ∧
    (addVideoFrame s pixel_data width height 3).videoFrames.length = s.videoFrames.length + 1 ∧
    getFrameCount s = (s.videoFrames.length : Int) ∧
    (clearVideoFrames s).videoFrames = [] ∧
    getFrameCount (clearVideoFrames s) = 0 := by
  refine ⟨?_, ?_, ?_, ?_, ?_, ?_⟩
  · intro h
    simp [addVideoFrame, h]
  · exact ⟨⟨width, height, 3, pixel_data.take (width * height * 3).toNat⟩, rfl, rfl, rfl,
      by simp [addVideoFrame]⟩
  · simp [addVideoFrame]
  · exact toInt32_of_lt _ hsize
  · rfl
  · simp [getFrameCount, clearVideoFrames, toInt32]

/-- C8 at a concrete input: a four-channel 64×64 frame is dropped, a three-channel one is
queued. -/
theorem C8_frame_filtering_witness :
    addVideoFrame (visionEngine 512) [1, 2, 3, 4] 64 64 4 = visionEngine 512 ∧
    (addVideoFrame (visionEngine 512) [1, 2, 3] 64 64 3).videoFrames.length = 1 ∧
    getFrameCount (visionEngine 512) = 0 :=
  have h := C8_frame_filtering (visionEngine 512) [1, 2, 3, 4] 64 64 4 (by decide)
  have h3 := C8_frame_filtering (visionEngine 512) [1, 2, 3] 64 64 3 (by decide)
  ⟨h.1 (by decide), h3.2.2.1, h.2.2.2.1⟩

/-! ## C7 — the history a multimodal prompt is built from -/

theorem markersFor_eq (marker : List Nat) (h : 0 ∉ marker) (n : Nat) :
    markersFor marker n = (List.replicate n marker).flatten := by
  induction n with
  | zero => rfl
  | succ n ih =>
    rw [markersFor, ih, c_str_of_no_nul _ h, List.replicate_succ', List.flatten_append]
    simp

theorem markersFor_no_nul (marker : List Nat) (n : Nat) : 0 ∉ markersFor marker n := by
  induction n with
  | zero => simp [markersFor]
  | succ n ih =>
    rw [markersFor, List.mem_append]
    rintro (h | h)
    · exact ih h
    · exact c_str_no_nul _ h

theorem buildMultimodalHistory_messages (s : Engine) (text_prompt marker : List Nat)
    (ht : 0 ∉ text_prompt) (hm : 0 ∉ marker) :
    (buildMultimodalHistory s text_prompt marker)._messages =
      s._messages.filter isSystem ++
        [⟨roleUser, (List.replicate s.videoFrames.length marker).flatten ++ [10] ++ text_prompt⟩] := by
  have hcontent : 0 ∉ markersFor marker s.videoFrames.length ++ [10] ++ c_str text_prompt := by
    simp only [List.mem_append, not_or]
    exact ⟨⟨markersFor_no_nul _ _, by decide⟩, c_str_no_nul _⟩
  have hrole : c_str roleUser = roleUser := by decide
  simp only [buildMultimodalHistory, addChatMessage, strdup]
  rw [c_str_idem, c_str_of_no_nul _ hcontent, hrole, c_str_of_no_nul _ ht, markersFor_eq _ hm]

/-- C7 (as amended): for C-string arguments (no NUL byte inside the text or the marker),
once `buildMultimodalChat` is past its guard the history is the system messages of the
prior history in their original order followed by one new user message whose content is
`n` copies of the marker (`n` the number of queued frames), then one newline byte, then
the caller's text — whatever the later steps of the call return; with an empty frame
queue the call returns `false` and changes nothing. -/
theorem C7_multimodal_history (s : Engine) (text_prompt : List Nat) (rp : ChatReply)
    (ht : 0 ∉ text_prompt) (hm : 0 ∉ rp.marker) :
    (s.is_multimodal_model = true → s._ctx = true → s.videoFrames ≠ [] →
      (buildMultimodalChat s text_prompt rp).1._messages =
        s._messages.filter isSystem ++
          [⟨roleUser,
            (List.replicate s.videoFrames.length rp.marker).flatten ++ [10] ++ text_prompt⟩]) ∧
    (s.videoFrames = [] → buildMultimodalChat s text_prompt rp = (s, false)) := by
  constructor
  · intro hmm hctx hframes
    have hne : s.videoFrames.isEmpty = false := by
      cases hv : s.videoFrames with
      | nil => exact absurd hv hframes
      | cons a l => rfl
    have key := buildMultimodalHistory_messages s text_prompt rp.marker ht hm
    simp only [buildMultimodalChat, hmm, hctx, hne, Bool.not_true, Bool.or_self,
      Bool.false_eq_true, if_false]
    split_ifs <;> simpa using key
  · intro hframes
    simp [buildMultimodalChat, hframes]

/-- A multimodal engine with two 64×64 RGB frames queued. -/
theorem C7_multimodal_history_witness :
    (buildMultimodalChat
        (addVideoFrame (addVideoFrame (visionEngine 512) [] 64 64 3) [] 64 64 3)
        describeText ⟨mediaMarker, 40, 0, true, 0, 0, 30⟩).1._messages =
      [⟨roleSystem, multimodalSystemPrompt⟩,
       ⟨roleUser, mediaMarker ++ mediaMarker ++ [10] ++ describeText⟩] :=
  (C7_multimodal_history (addVideoFrame (addVideoFrame (visionEngine 512) [] 64 64 3) [] 64 64 3)
    describeText ⟨mediaMarker, 40, 0, true, 0, 0, 30⟩ (by decide) (by decide)).1
    (by decide) (by decide) (by decide)

/-- C7 as stated fails: with two frames queued and the text `"Describe"`, the content of the
new user message is not the two markers directly followed by the text. -/
theorem C7_counterexample :
    (addVideoFrame (addVideoFrame (visionEngine 512) [] 64 64 3) [] 64 64 3).videoFrames.length = 2 ∧
    (buildMultimodalChat
        (addVideoFrame (addVideoFrame (visionEngine 512) [] 64 64 3) [] 64 64 3)
        describeText ⟨mediaMarker, 40, 0, true, 0, 0, 30⟩).2 = true ∧
    (buildMultimodalChat
        (addVideoFrame (addVideoFrame (visionEngine 512) [] 64 64 3) [] 64 64 3)
        describeText ⟨mediaMarker, 40, 0, true, 0, 0, 30⟩).1._messages ≠
      (visionEngine 512)._messages.filter isSystem ++
        [⟨roleUser, (List.replicate 2 mediaMarker).flatten ++ describeText⟩] := by
  decide

/-! ## C3 — the decode status -/

theorem detokenizeAndEmit_ok (s : Engine) (rp : StepReply) :
    ∃ chunk, (detokenizeAndEmit s rp).2 = .ok chunk := by
  unfold detokenizeAndEmit
  simp only
  split_ifs
  · exact ⟨_, rfl⟩
  · exact ⟨_, rfl⟩

theorem sampleAndEmit_ok (s : Engine) (rp : StepReply) :
    ∃ chunk, (sampleAndEmit s rp).2 = .ok chunk := by
  unfold sampleAndEmit
  simp only
  split_ifs
  · exact ⟨_, rfl⟩
  · exact ⟨_, rfl⟩
  · exact detokenizeAndEmit_ok _ _

theorem detokenizeAndEmit_batch (s : Engine) (rp : StepReply) :
    (detokenizeAndEmit s rp).1._batch =
      s._batch.map (fun b => b ++ [⟨s._currToken, s._nCtxUsed, 0, true⟩]) := by
  unfold detokenizeAndEmit
  simp only
  split_ifs <;> rfl

theorem sampleAndEmit_batch (s : Engine) (rp : StepReply) :
    (sampleAndEmit s rp).1._batch = s._batch ∨
    (sampleAndEmit s rp).1._batch =
      s._batch.map (fun b => b ++ [⟨rp.token, rp.posMax + 1, 0, true⟩]) := by
  unfold sampleAndEmit
  simp only
  split_ifs
  · exact Or.inl rfl
  · exact Or.inl rfl
  · right
    rw [detokenizeAndEmit_batch]

/-- C3: on an engine whose context and sampler exist and whose batch is `batch`,
`completionLoop` raises exactly when the batch is non-empty and the decode status is
negative; with a non-empty batch and a positive status it returns `"[EOG]"` and the whole
engine (history, response, pending buffer, sampler state) is unchanged; with a non-empty
batch and status zero the rest of the call runs on the engine whose batch has been
emptied, and the batch it leaves holds nothing of the decoded batch: it is empty, or
holds only the newly sampled token. -/
theorem C3_decode_status (s : Engine) (rp : StepReply) (batch : List BatchEntry)
    (hctx : s._ctx = true) (hsampler : s._sampler = true) (hbatch : s._batch = some batch) :
    ((∃ what, (completionLoop s rp).2 = .threw what) ↔ (batch ≠ [] ∧ rp.decodeRes < 0)) ∧
    (batch ≠ [] → 0 < rp.decodeRes → completionLoop s rp = (s, .ok EOG)) ∧
    (batch ≠ [] → rp.decodeRes = 0 →
      completionLoop s rp = sampleAndEmit { s with _batch := some [] } rp ∧
      ((completionLoop s rp).1._batch = some [] ∨
       (completionLoop s rp).1._batch = some [⟨rp.token, rp.posMax + 1, 0, true⟩])) := by
  have hlen : batch ≠ [] ↔ batch.length > 0 := by
    cases batch <;> simp
  have hunf : completionLoop s rp =
      if batch.length > 0 then
        if rp.decodeRes < 0 then (s, .threw "llama_decode() failed")
        else if rp.decodeRes > 0 then (s, .ok EOG)
        else sampleAndEmit { s with _batch := some [] } rp
      else sampleAndEmit s rp := by
    simp [completionLoop, hctx, hsampler, hbatch]
  refine ⟨?_, ?_, ?_⟩
  · rw [hunf, hlen]
    constructor
    · rintro ⟨what, h⟩
      split_ifs at h with h1 h2 h3
      · exact ⟨h1, h2⟩
      · obtain ⟨c, hc⟩ := sampleAndEmit_ok { s with _batch := some [] } rp
        rw [hc] at h
        cases h
      · obtain ⟨c, hc⟩ := sampleAndEmit_ok s rp
        rw [hc] at h
        cases h
    · rintro ⟨h1, h2⟩
      exact ⟨"llama_decode() failed", by simp [h1, h2]⟩
  · intro h1 h2
    rw [hunf, if_pos (hlen.mp h1), if_neg (by omega), if_pos h2]
  · intro h1 h2
    have hrun : completionLoop s rp = sampleAndEmit { s with _batch := some [] } rp := by
      rw [hunf, if_pos (hlen.mp h1), if_neg (by omega), if_neg (by omega)]
    refine ⟨hrun, ?_⟩
    rw [hrun]
    rcases sampleAndEmit_batch { s with _batch := some [] } rp with h | h
    · exact Or.inl h
    · exact Or.inr (by simpa using h)

/-- C3 at concrete inputs: after `startCompletion` with three prompt tokens, status `-1`
raises, status `1` returns the sentinel and changes nothing. -/
theorem C3_decode_status_witness :
    (∃ what, (completionLoop (startCompletion (textEngine true 512) helloText ⟨20, 0, [1, 2, 3]⟩).1
        ⟨-1, 2, 7, false, [72], 5⟩).2 = .threw what) ∧
    completionLoop (startCompletion (textEngine true 512) helloText ⟨20, 0, [1, 2, 3]⟩).1
        ⟨1, 2, 7, false, [72], 5⟩ =
      ((startCompletion (textEngine true 512) helloText ⟨20, 0, [1, 2, 3]⟩).1, .ok EOG) :=
  ⟨(C3_decode_status (startCompletion (textEngine true 512) helloText ⟨20, 0, [1, 2, 3]⟩).1
      ⟨-1, 2, 7, false, [72], 5⟩ (promptBatch [1, 2, 3]) (by decide) (by decide) (by decide)).1.mpr
      ⟨by decide, by decide⟩,
   (C3_decode_status (startCompletion (textEngine true 512) helloText ⟨20, 0, [1, 2, 3]⟩).1
      ⟨1, 2, 7, false, [72], 5⟩ (promptBatch [1, 2, 3]) (by decide) (by decide) (by decide)).2.1
      (by decide) (by decide)⟩

/-! ## The paths through `completionLoop` -/

theorem completionLoop_sampled (s : Engine) (rp : StepReply) (h : reachesSampling s rp = true) :
    completionLoop s rp =
      if rp.isEog then
        ({ addChatMessage (afterSampling s rp) (c_str s._response) roleAssistant with
            _response := [] }, .ok EOG)
      else detokenizeAndEmit (afterSampling s rp) rp := by
  unfold reachesSampling at h
  simp only [Bool.and_eq_true, decide_eq_true_eq] at h
  obtain ⟨⟨⟨hctx, hsampler⟩, hb⟩, hpos⟩ := h
  cases hbatch : s._batch with
  | none => simp [hbatch] at hb
  | some batch =>
    rw [hbatch] at hb
    simp only [Bool.or_eq_true, List.isEmpty_iff, decide_eq_true_eq] at hb
    have hge : ¬ (rp.posMax + 1 ≥ toInt32 s.contextSize) := by omega
    rcases hb with hb | hb
    · subst hb
      have hs : ({ s with _batch := some [] } : Engine) = s := by
        cases s
        simp_all
      simp only [completionLoop, hctx, hsampler, hbatch, sampleAndEmit, afterSampling]
      simp [hge]
    · by_cases hl : batch.length > 0
      · simp only [completionLoop, hctx, hsampler, hbatch, sampleAndEmit, afterSampling]
        simp [hl, hb, hge]
      · have hnil : batch = [] := by
          cases batch with
          | nil => rfl
          | cons a l => simp at hl
        subst hnil
        simp only [completionLoop, hctx, hsampler, hbatch, sampleAndEmit, afterSampling]
        simp [hge]

theorem completionLoop_not_sampled (s : Engine) (rp : StepReply)
    (h : reachesSampling s rp = false) :
    ((completionLoop s rp).2 = .ok EOG ∨ ∃ what, (completionLoop s rp).2 = .threw what) ∧
    ∃ b n, (completionLoop s rp).1 = { s with _batch := b, _nCtxUsed := n } := by
  have hself : ∃ b n, s = { s with _batch := b, _nCtxUsed := n } := ⟨s._batch, s._nCtxUsed, rfl⟩
  unfold reachesSampling at h
  unfold completionLoop
  by_cases hg : (!s._ctx || s._batch.isNone || !s._sampler) = true
  · rw [if_pos hg]
    exact ⟨Or.inl rfl, hself⟩
  · rw [if_neg hg]
    simp only [Bool.or_eq_true, Bool.not_eq_true', not_or, Bool.not_eq_false,
      Option.isNone_iff_eq_none] at hg
    obtain ⟨⟨hctx, hbn⟩, hsampler⟩ := hg
    cases hbatch : s._batch with
    | none => exact absurd hbatch hbn
    | some batch =>
      rw [hbatch] at h
      simp only [hctx, hsampler, Bool.and_self, Bool.true_and, Bool.and_eq_false_imp,
        Bool.or_eq_true, List.isEmpty_iff, decide_eq_true_eq, decide_eq_false_iff_not] at h
      simp only
      by_cases hl : batch.length > 0
      · rw [if_pos hl]
        by_cases h1 : rp.decodeRes < 0
        · rw [if_pos h1]
          exact ⟨Or.inr ⟨_, rfl⟩, hself⟩
        · rw [if_neg h1]
          by_cases h2 : rp.decodeRes > 0
          · rw [if_pos h2]
            exact ⟨Or.inl rfl, hself⟩
          · rw [if_neg h2]
            have h0 : rp.decodeRes = 0 := by omega
            have hfull := h (Or.inr h0)
            have hge : rp.posMax + 1 ≥ toInt32 s.contextSize := by omega
            refine ⟨Or.inl ?_, some [], rp.posMax + 1, ?_⟩
            · simp [sampleAndEmit, hge]
            · simp [sampleAndEmit, hge]
      · rw [if_neg hl]
        have hnil : batch = [] := by
          cases batch with
          | nil => rfl
          | cons a l => simp at hl
        have hfull := h (Or.inl hnil)
        have hge : rp.posMax + 1 ≥ toInt32 s.contextSize := by omega
        refine ⟨Or.inl ?_, s._batch, rp.posMax + 1, ?_⟩
        · simp [sampleAndEmit, hge]
        · simp [sampleAndEmit, hge]

theorem detokenizeAndEmit_valid (s : Engine) (rp : StepReply)
    (h : _isValidUtf8 (c_str (s._cacheResponseTokens ++ removeCR rp.piece)) = true) :
    (detokenizeAndEmit s rp).2 = .ok (s._cacheResponseTokens ++ removeCR rp.piece) ∧
    (detokenizeAndEmit s rp).1._response =
      s._response ++ (s._cacheResponseTokens ++ removeCR rp.piece) ∧
    (detokenizeAndEmit s rp).1._cacheResponseTokens = [] ∧
    (detokenizeAndEmit s rp).1._messages = s._messages ∧
    (detokenizeAndEmit s rp).1._storeChats = s._storeChats := by
  simp [detokenizeAndEmit, h]

theorem detokenizeAndEmit_invalid (s : Engine) (rp : StepReply)
    (h : _isValidUtf8 (c_str (s._cacheResponseTokens ++ removeCR rp.piece)) = false) :
    (detokenizeAndEmit s rp).2 = .ok [] ∧
    (detokenizeAndEmit s rp).1._response = s._response ∧
    (detokenizeAndEmit s rp).1._cacheResponseTokens =
      s._cacheResponseTokens ++ removeCR rp.piece ∧
    (detokenizeAndEmit s rp).1._messages = s._messages ∧
    (detokenizeAndEmit s rp).1._storeChats = s._storeChats := by
  simp [detokenizeAndEmit, h]

theorem completionLoop_pendingHeld (s : Engine) (rp : StepReply) (h : PendingHeld s) :
    PendingHeld (completionLoop s rp).1 := by
  cases hs : reachesSampling s rp with
  | false =>
    obtain ⟨_, b, n, hst⟩ := completionLoop_not_sampled s rp hs
    rw [hst]
    exact h
  | true =>
    rw [completionLoop_sampled s rp hs]
    cases he : rp.isEog with
    | true => simpa [PendingHeld, addChatMessage, afterSampling] using h
    | false =>
      simp only [Bool.false_eq_true, if_false]
      cases hv : _isValidUtf8 (c_str ((afterSampling s rp)._cacheResponseTokens ++ removeCR rp.piece)) with
      | true => exact Or.inl (detokenizeAndEmit_valid _ rp hv).2.2.1
      | false =>
        right
        rw [(detokenizeAndEmit_invalid _ rp hv).2.2.1]
        exact hv

theorem startCompletion_pending (s : Engine) (q : List Nat) (rp : StartReply) :
    (startCompletion s q rp).1._cacheResponseTokens = s._cacheResponseTokens ∧
    (startCompletion s q rp).1._response = s._response := by
  unfold startCompletion startCompletionHistory addChatMessage
  simp only
  split_ifs <;> exact ⟨rfl, rfl⟩

theorem stopCompletion_pending (s : Engine) (rp : StopReply) :
    (stopCompletion s rp).1._cacheResponseTokens = s._cacheResponseTokens ∧
    (stopCompletion s rp).1._response = [] := by
  unfold stopCompletion addChatMessage
  simp only
  split_ifs <;> exact ⟨rfl, rfl⟩

theorem buildMultimodalChat_pending (s : Engine) (t : List Nat) (rp : ChatReply) :
    (buildMultimodalChat s t rp).1._cacheResponseTokens = s._cacheResponseTokens ∨
    (buildMultimodalChat s t rp).1._cacheResponseTokens = [] := by
  unfold buildMultimodalChat buildMultimodalHistory addChatMessage
  simp only
  split_ifs <;> first | exact Or.inl rfl | exact Or.inr rfl

theorem perform_pendingHeld (s : Engine) (c : Call) (h : PendingHeld s) :
    PendingHeld (perform s c) := by
  cases c with
  | start q rp =>
    simp only [perform, PendingHeld, (startCompletion_pending s q rp).1]
    exact h
  | step rp => exact completionLoop_pendingHeld s rp h
  | stop rp =>
    simp only [perform, PendingHeld, (stopCompletion_pending s rp).1]
    exact h
  | chat t rp =>
    rcases buildMultimodalChat_pending s t rp with e | e
    · simp only [perform, PendingHeld, e]
      exact h
    · exact Or.inl e
  | frame p w hh c =>
    simp only [perform, addVideoFrame]
    split_ifs <;> exact h
  | clearFrames => exact h

theorem performAll_pendingHeld (calls : List Call) (s : Engine) (h : PendingHeld s) :
    PendingHeld (performAll s calls) := by
  induction calls generalizing s with
  | nil => exact h
  | cons c cs ih => exact ih (perform s c) (perform_pendingHeld s c h)

/-! ## C10 — the pending buffer -/

/-- C10: in every state reached from an engine with an empty pending buffer by any
sequence of `startCompletion`, `completionLoop`, `stopCompletion`, `buildMultimodalChat`
(and frame queue) calls, under any backend replies, the pending buffer is empty or fails
`_isValidUtf8`; and a `completionLoop` call on such a state that reaches detokenisation
forms the buffer `pending ++ piece-without-CR` and, when the buffer passes `_isValidUtf8`,
returns the whole buffer, appends it to the confirmed text and empties the pending
buffer; otherwise it returns the empty chunk, leaves the confirmed text unchanged and
keeps the buffer. -/
theorem C10_pending_buffer (s0 : Engine) (calls : List Call)
    (h0 : s0._cacheResponseTokens = []) :
    ((performAll s0 calls)._cacheResponseTokens = [] ∨
      _isValidUtf8 (c_str (performAll s0 calls)._cacheResponseTokens) = false) ∧
    ∀ rp : StepReply, reachesSampling (performAll s0 calls) rp = true → rp.isEog = false →
      (_isValidUtf8 (c_str ((performAll s0 calls)._cacheResponseTokens ++ removeCR rp.piece)) = true →
        (completionLoop (performAll s0 calls) rp).2 =
            .ok ((performAll s0 calls)._cacheResponseTokens ++ removeCR rp.piece) ∧
        (completionLoop (performAll s0 calls) rp).1._response =
            (performAll s0 calls)._response ++
              ((performAll s0 calls)._cacheResponseTokens ++ removeCR rp.piece) ∧
        (completionLoop (performAll s0 calls) rp).1._cacheResponseTokens = []) ∧
      (_isValidUtf8 (c_str ((performAll s0 calls)._cacheResponseTokens ++ removeCR rp.piece)) = false →
        (completionLoop (performAll s0 calls) rp).2 = .ok [] ∧
        (completionLoop (performAll s0 calls) rp).1._response = (performAll s0 calls)._response ∧
        (completionLoop (performAll s0 calls) rp).1._cacheResponseTokens =
            (performAll s0 calls)._cacheResponseTokens ++ removeCR rp.piece) := by
  refine ⟨performAll_pendingHeld calls s0 (Or.inl h0), ?_⟩
  intro rp hs he
  rw [completionLoop_sampled _ rp hs, he]
  simp only [Bool.false_eq_true, if_false]
  constructor
  · intro hv
    have h := detokenizeAndEmit_valid (afterSampling (performAll s0 calls) rp) rp hv
    exact ⟨h.1, h.2.1, h.2.2.1⟩
  · intro hv
    have h := detokenizeAndEmit_invalid (afterSampling (performAll s0 calls) rp) rp hv
    exact ⟨h.1, h.2.1, h.2.2.1⟩

/-- C10 on a turn whose first piece is the first two bytes of `€` and whose second piece is
the third byte: the first call holds the bytes, the second returns all three. -/
theorem C10_pending_buffer_witness :
    (performAll (textEngine true 512)
        [.start helloText ⟨20, 0, [1, 2, 3]⟩, .step ⟨0, 2, 7, false, [0xE2, 0x82], 5⟩])._cacheResponseTokens
      = [0xE2, 0x82] ∧
    _isValidUtf8 (c_str [0xE2, 0x82]) = false ∧
    (completionLoop
        (performAll (textEngine true 512)
          [.start helloText ⟨20, 0, [1, 2, 3]⟩, .step ⟨0, 2, 7, false, [0xE2, 0x82], 5⟩])
        ⟨0, 3, 8, false, [0xAC], 5⟩).2 = .ok [0xE2, 0x82, 0xAC] :=
  ⟨by decide, by decide,
   (((C10_pending_buffer (textEngine true 512)
        [.start helloText ⟨20, 0, [1, 2, 3]⟩, .step ⟨0, 2, 7, false, [0xE2, 0x82], 5⟩]
        (by decide)).2 ⟨0, 3, 8, false, [0xAC], 5⟩ (by decide) (by decide)).1 (by decide)).1⟩

/-! ## C2 — the end marker and emitted text -/

theorem eog_prefix_valid (a b : List Nat) (h : a ++ b = EOG) : _isValidUtf8 (c_str a) = true := by
  have hp : a <+: EOG := ⟨b, h⟩
  have hlen : a.length ≤ 5 := by
    have := hp.length_le
    simpa [EOG] using this
  have ha : a = EOG.take a.length := (List.prefix_iff_eq_take.mp hp)
  rw [ha]
  interval_cases a.length <;> decide

/-- C2 (as amended): on an engine whose pending buffer is empty or held (C10), a
`completionLoop` call that goes through the normal emit path (a token is sampled and it
is not end-of-generation) returns the end marker `"[EOG]"` exactly when the pending
buffer is empty and the sampled piece, carriage returns removed, is the five bytes
`[EOG]`; every other emitted chunk differs from the marker. -/
theorem C2_sentinel_vs_text (s : Engine) (rp : StepReply)
    (hheld : s._cacheResponseTokens = [] ∨ _isValidUtf8 (c_str s._cacheResponseTokens) = false)
    (hs : reachesSampling s rp = true) (he : rp.isEog = false) :
    (completionLoop s rp).2 = .ok EOG ↔
      (s._cacheResponseTokens = [] ∧ removeCR rp.piece = EOG) := by
  rw [completionLoop_sampled s rp hs, he]
  simp only [Bool.false_eq_true, if_false]
  have hc : (afterSampling s rp)._cacheResponseTokens = s._cacheResponseTokens := rfl
  cases hv : _isValidUtf8 (c_str ((afterSampling s rp)._cacheResponseTokens ++ removeCR rp.piece)) with
  | true =>
    rw [(detokenizeAndEmit_valid _ rp hv).1, hc]
    constructor
    · intro h
      have hb : s._cacheResponseTokens ++ removeCR rp.piece = EOG := by
        injection h
      have hval := eog_prefix_valid _ _ hb
      rcases hheld with h1 | h1
      · rw [h1] at hb
        exact ⟨h1, by simpa using hb⟩
      · rw [h1] at hval
        cases hval
    · rintro ⟨h1, h2⟩
      rw [h1, h2]
      rfl
  | false =>
    rw [(detokenizeAndEmit_invalid _ rp hv).1]
    constructor
    · intro h
      injection h with h
      cases h
    · rintro ⟨h1, h2⟩
      rw [hc, h1, h2] at hv
      revert hv
      decide

/-- C2 at a concrete input: the piece `"Hi"` is emitted as a chunk that is not the marker. -/
theorem C2_sentinel_vs_text_witness :
    ¬ (completionLoop (startCompletion (textEngine true 512) helloText ⟨20, 0, [1, 2, 3]⟩).1
        ⟨0, 2, 7, false, [72, 105], 5⟩).2 = .ok EOG :=
  fun h =>
    absurd ((C2_sentinel_vs_text (startCompletion (textEngine true 512) helloText ⟨20, 0, [1, 2, 3]⟩).1
      ⟨0, 2, 7, false, [72, 105], 5⟩ (Or.inl (by decide)) (by decide) (by decide)).mp h).2
      (by decide)

/-- C2 as stated fails: a backend whose sampled token is not end-of-generation and whose
piece is the text `[EOG]` makes the normal emit path return a chunk equal to the marker. -/
theorem C2_counterexample :
    reachesSampling (startCompletion (textEngine true 512) helloText ⟨20, 0, [1, 2, 3]⟩).1
        ⟨0, 2, 7, false, [91, 69, 79, 71, 93], 5⟩ = true ∧
    _isValidUtf8 (c_str ((startCompletion (textEngine true 512) helloText
        ⟨20, 0, [1, 2, 3]⟩).1._cacheResponseTokens ++ removeCR [91, 69, 79, 71, 93])) = true ∧
    (completionLoop (startCompletion (textEngine true 512) helloText ⟨20, 0, [1, 2, 3]⟩).1
        ⟨0, 2, 7, false, [91, 69, 79, 71, 93], 5⟩).2 = .ok EOG ∧
    (completionLoop (startCompletion (textEngine true 512) helloText ⟨20, 0, [1, 2, 3]⟩).1
        ⟨0, 2, 7, false, [91, 69, 79, 71, 93], 5⟩).1._response = [91, 69, 79, 71, 93] := by
  decide

/-! ## C6 — history when retention is off -/

/-- C6 fails on the code: on a multimodal engine (`loadMultimodalModel` installs a system
message and switches retention off) `startCompletion("Hello")` succeeds and the history
its batch is built from is the user message alone; the system message is gone. -/
theorem C6_system_message_lost :
    (visionEngine 512)._storeChats = false ∧
    (visionEngine 512)._messages = [⟨roleSystem, multimodalSystemPrompt⟩] ∧
    (startCompletion (visionEngine 512) helloText ⟨20, 0, [1, 2, 3]⟩).2 = .ok () ∧
    (startCompletionHistory (visionEngine 512) helloText)._messages = [⟨roleUser, helloText⟩] ∧
    (startCompletion (visionEngine 512) helloText ⟨20, 0, [1, 2, 3]⟩).1._messages =
      [⟨roleUser, helloText⟩] := by
  decide

/-! ## C9 — the generation buffer at turn boundaries -/

/-- C9 fails on the code.  A turn on a text engine without retention receives the first two
bytes of `€` and is stopped: after `stopCompletion` the pending buffer still holds them,
after the next `startCompletion` it still does, and the first chunk of the new turn,
whose own piece is the single byte `AC`, is the three bytes `E2 82 AC`.  Likewise text
left in `_response` (a turn ended by context exhaustion, no `stopCompletion`) survives
`startCompletion`. -/
theorem C9_generation_buffer_survives :
    (performAll (textEngine false 512)
        [.start helloText ⟨20, 0, [1, 2, 3]⟩, .step ⟨0, 2, 7, false, [0xE2, 0x82], 5⟩,
         .stop ⟨30⟩])._cacheResponseTokens = [0xE2, 0x82] ∧
    (performAll (textEngine false 512)
        [.start helloText ⟨20, 0, [1, 2, 3]⟩, .step ⟨0, 2, 7, false, [0xE2, 0x82], 5⟩,
         .stop ⟨30⟩, .start describeText ⟨20, 0, [4, 5]⟩])._cacheResponseTokens = [0xE2, 0x82] ∧
    (completionLoop
        (performAll (textEngine false 512)
          [.start helloText ⟨20, 0, [1, 2, 3]⟩, .step ⟨0, 2, 7, false, [0xE2, 0x82], 5⟩,
           .stop ⟨30⟩, .start describeText ⟨20, 0, [4, 5]⟩])
        ⟨0, 4, 9, false, [0xAC], 5⟩).2 = .ok [0xE2, 0x82, 0xAC] ∧
    (performAll (textEngine false 4)
        [.start helloText ⟨20, 0, [1, 2, 3]⟩, .step ⟨0, 2, 7, false, [72, 105], 5⟩,
         .step ⟨0, 3, 8, false, [33], 5⟩, .start describeText ⟨20, 0, [4, 5]⟩])._response
      = [72, 105] := by
  decide

/-! ## C5 — the history after one turn -/

theorem runTurn_cons_threw (s s1 : Engine) (rp : StepReply) (rps : List StepReply) (what : String)
    (h : completionLoop s rp = (s1, .threw what)) :
    runTurn s (rp :: rps) = ⟨s1, [], .raised, false⟩ := by
  simp [runTurn, h]

theorem runTurn_cons_eog (s s1 : Engine) (rp : StepReply) (rps : List StepReply)
    (h : completionLoop s rp = (s1, .ok EOG)) :
    runTurn s (rp :: rps) = ⟨s1, [], .sentinel, reachesSampling s rp && rp.isEog⟩ := by
  simp [runTurn, h]

theorem runTurn_cons_chunk (s s1 : Engine) (rp : StepReply) (rps : List StepReply)
    (chunk : List Nat) (h : completionLoop s rp = (s1, .ok chunk)) (hne : chunk ≠ EOG) :
    runTurn s (rp :: rps) =
      ⟨(runTurn s1 rps).final, chunk :: (runTurn s1 rps).chunks, (runTurn s1 rps).ending,
        (runTurn s1 rps).eogToken⟩ := by
  simp [runTurn, h, hne]

theorem held_buffer_ne_eog (s : Engine) (rp : StepReply) (hheld : PendingHeld s)
    (htext : removeCR rp.piece ≠ EOG) :
    s._cacheResponseTokens ++ removeCR rp.piece ≠ EOG := by
  intro hb
  rcases hheld with h1 | h1
  · rw [h1] at hb
    exact htext (by simpa using hb)
  · have hval := eog_prefix_valid _ _ hb
    rw [h1] at hval
    cases hval

/-- What a turn that ends on the marker leaves behind, before `stopCompletion`. -/
theorem runTurn_sentinel (rps : List StepReply) :
    ∀ s : Engine, PendingHeld s → (∀ rp ∈ rps, removeCR rp.piece ≠ EOG) →
      (runTurn s rps).ending = .sentinel →
      (runTurn s rps).final._storeChats = s._storeChats ∧
      ((runTurn s rps).eogToken = true →
        (runTurn s rps).final._messages =
            s._messages ++ [⟨roleAssistant, c_str (s._response ++ (runTurn s rps).chunks.flatten)⟩] ∧
        (runTurn s rps).final._response = []) ∧
      ((runTurn s rps).eogToken = false →
        (runTurn s rps).final._messages = s._messages ∧
        (runTurn s rps).final._response = s._response ++ (runTurn s rps).chunks.flatten) := by
  induction rps with
  | nil =>
    intro s _ _ hend
    simp [runTurn] at hend
  | cons rp rps ih =>
    intro s hheld htext hend
    have htext1 : removeCR rp.piece ≠ EOG := htext rp (List.mem_cons_self _ _)
    have htext2 : ∀ rp' ∈ rps, removeCR rp'.piece ≠ EOG :=
      fun rp' h => htext rp' (List.mem_cons_of_mem _ h)
    cases hs : reachesSampling s rp with
    | false =>
      obtain ⟨hout, b, n, hst⟩ := completionLoop_not_sampled s rp hs
      rcases hout with hout | ⟨what, hout⟩
      · have hcl : completionLoop s rp = ({ s with _batch := b, _nCtxUsed := n }, .ok EOG) :=
          Prod.ext hst hout
        rw [runTurn_cons_eog s _ rp rps hcl, hs]
        simp
      · have hcl : completionLoop s rp = ({ s with _batch := b, _nCtxUsed := n }, .threw what) :=
          Prod.ext hst hout
        rw [runTurn_cons_threw s _ rp rps what hcl] at hend
        cases hend
    | true =>
      have hcl := completionLoop_sampled s rp hs
      cases he : rp.isEog with
      | true =>
        rw [he] at hcl
        simp only [if_true] at hcl
        rw [runTurn_cons_eog s _ rp rps hcl, hs, he]
        have hrole : c_str roleAssistant = roleAssistant := by decide
        simp [addChatMessage, afterSampling, strdup, c_str_idem, hrole]
      | false =>
        rw [he] at hcl
        simp only [Bool.false_eq_true, if_false] at hcl
        have hc : (afterSampling s rp)._cacheResponseTokens = s._cacheResponseTokens := rfl
        have hm : (afterSampling s rp)._messages = s._messages := rfl
        have hr : (afterSampling s rp)._response = s._response := rfl
        have hsc : (afterSampling s rp)._storeChats = s._storeChats := rfl
        cases hv : _isValidUtf8
            (c_str ((afterSampling s rp)._cacheResponseTokens ++ removeCR rp.piece)) with
        | true =>
          obtain ⟨h1, h2, h3, h4, h5⟩ := detokenizeAndEmit_valid _ rp hv
          rw [hc] at h1 h2
          rw [hr] at h2
          rw [hm] at h4
          rw [hsc] at h5
          have hne := held_buffer_ne_eog s rp hheld htext1
          have hstep : completionLoop s rp =
              ((detokenizeAndEmit (afterSampling s rp) rp).1,
                .ok (s._cacheResponseTokens ++ removeCR rp.piece)) := by
            rw [hcl]
            exact Prod.ext rfl h1
          rw [runTurn_cons_chunk s _ rp rps _ hstep hne] at hend ⊢
          simp only at hend ⊢
          obtain ⟨i1, i2, i3⟩ := ih _ (Or.inl h3) htext2 hend
          rw [h2, h4] at i2 i3
          rw [h5] at i1
          refine ⟨i1, ?_, ?_⟩
          · intro ht
            simpa [List.append_assoc] using i2 ht
          · intro ht
            simpa [List.append_assoc] using i3 ht
        | false =>
          obtain ⟨h1, h2, h3, h4, h5⟩ := detokenizeAndEmit_invalid _ rp hv
          rw [hr] at h2
          rw [hm] at h4
          rw [hsc] at h5
          have hne : ([] : List Nat) ≠ EOG := by decide
          have hstep : completionLoop s rp =
              ((detokenizeAndEmit (afterSampling s rp) rp).1, .ok []) := by
            rw [hcl]
            exact Prod.ext rfl h1
          have hheld1 : PendingHeld (detokenizeAndEmit (afterSampling s rp) rp).1 := by
            right
            rw [h3]
            exact hv
          rw [runTurn_cons_chunk s _ rp rps _ hstep hne] at hend ⊢
          simp only at hend ⊢
          obtain ⟨i1, i2, i3⟩ := ih _ hheld1 htext2 hend
          rw [h2, h4] at i2 i3
          rw [h5] at i1
          refine ⟨i1, ?_, ?_⟩
          · intro ht
            simpa using i2 ht
          · intro ht
            simpa using i3 ht

theorem startCompletion_fresh_messages (s : Engine) (q : List Nat) (rp : StartReply)
    (hm : s._messages = []) :
    (startCompletion s q rp).1._messages = [⟨roleUser, c_str q⟩] ∧
    (startCompletion s q rp).1._storeChats = s._storeChats := by
  have hrole : c_str roleUser = roleUser := by decide
  unfold startCompletion startCompletionHistory addChatMessage
  simp only
  split_ifs <;> simp [hm, strdup, hrole]

theorem stopCompletion_messages (s : Engine) (rp : StopReply) :
    (stopCompletion s rp).1._messages =
      if s._storeChats && !s._response.isEmpty then
        s._messages ++ [⟨roleAssistant, c_str s._response⟩]
      else s._messages := by
  have hrole : c_str roleAssistant = roleAssistant := by decide
  unfold stopCompletion addChatMessage
  simp only
  split_ifs <;> simp [strdup, hrole, c_str_idem]

/-- C5 (as amended): start from an engine with empty history and empty generation buffer,
call `startCompletion(q)`, pull `completionLoop` until the first `"[EOG]"` (no piece of
the turn spelling that marker itself), then call `stopCompletion`.  The history is then
`(user, q)` followed by `(assistant, r)`, `r` the concatenation of the chunks received (as
a C string), if the turn ended on an end-of-generation token, or if retention is on and
`r` is non-empty; in every other case (the marker came from a full context, a decode
warning or a missing handle, and retention is off or `r` is empty) the history is
`(user, q)` alone.  The assistant message is never appended twice. -/
theorem C5_turn_history (s0 : Engine) (q : List Nat) (srp : StartReply) (rps : List StepReply)
    (strp : StopReply)
    (hm : s0._messages = []) (hr : s0._response = []) (hc : s0._cacheResponseTokens = [])
    (hend : (runTurn (startCompletion s0 q srp).1 rps).ending = .sentinel)
    (htext : ∀ rp ∈ rps, removeCR rp.piece ≠ EOG) :
    (stopCompletion (runTurn (startCompletion s0 q srp).1 rps).final strp).1._messages =
      if (runTurn (startCompletion s0 q srp).1 rps).eogToken ||
          (s0._storeChats && !(runTurn (startCompletion s0 q srp).1 rps).chunks.flatten.isEmpty) then
        [⟨roleUser, c_str q⟩,
         ⟨roleAssistant, c_str (runTurn (startCompletion s0 q srp).1 rps).chunks.flatten⟩]
      else [⟨roleUser, c_str q⟩] := by
  obtain ⟨hm1, hsc1⟩ := startCompletion_fresh_messages s0 q srp hm
  obtain ⟨hc1, hr1⟩ := startCompletion_pending s0 q srp
  have hheld : PendingHeld (startCompletion s0 q srp).1 := Or.inl (hc1.trans hc)
  obtain ⟨i1, i2, i3⟩ := runTurn_sentinel rps _ hheld htext hend
  rw [hm1, hr1, hr] at i2 i3
  rw [hsc1] at i1
  rw [stopCompletion_messages, i1]
  cases ht : (runTurn (startCompletion s0 q srp).1 rps).eogToken with
  | true =>
    obtain ⟨j1, j2⟩ := i2 ht
    rw [j1, j2]
    simp
  | false =>
    obtain ⟨j1, j2⟩ := i3 ht
    rw [j1, j2]
    simp only [List.nil_append, Bool.false_or]
    split_ifs <;> simp

/-- C5 on a turn with retention on that emits `"Hi"` and then samples an end-of-generation
token. -/
theorem C5_turn_history_witness :
    (stopCompletion
        (runTurn (startCompletion (textEngine true 512) helloText ⟨20, 0, [1, 2, 3]⟩).1
          [⟨0, 2, 7, false, [72, 105], 5⟩, ⟨0, 3, 2, true, [], 5⟩]).final ⟨40⟩).1._messages =
      [⟨roleUser, helloText⟩, ⟨roleAssistant, [72, 105]⟩] :=
  C5_turn_history (textEngine true 512) helloText ⟨20, 0, [1, 2, 3]⟩
    [⟨0, 2, 7, false, [72, 105], 5⟩, ⟨0, 3, 2, true, [], 5⟩] ⟨40⟩
    (by decide) (by decide) (by decide) (by decide) (by decide)

/-- C5 as stated fails: on a fresh text engine without retention and with context size 4, a
turn that emits `"Hi"` and `"!"` and then runs out of context ends on the marker, and
after `stopCompletion` the history holds the user message only. -/
theorem C5_counterexample :
    (textEngine false 4)._messages = [] ∧
    (runTurn (startCompletion (textEngine false 4) helloText ⟨20, 0, [1, 2]⟩).1
        [⟨0, 1, 7, false, [72, 105], 5⟩, ⟨0, 2, 8, false, [33], 5⟩,
         ⟨0, 3, 9, false, [120], 5⟩]).ending = .sentinel ∧
    (runTurn (startCompletion (textEngine false 4) helloText ⟨20, 0, [1, 2]⟩).1
        [⟨0, 1, 7, false, [72, 105], 5⟩, ⟨0, 2, 8, false, [33], 5⟩,
         ⟨0, 3, 9, false, [120], 5⟩]).chunks = [[72, 105], [33]] ∧
    (stopCompletion
        (runTurn (startCompletion (textEngine false 4) helloText ⟨20, 0, [1, 2]⟩).1
          [⟨0, 1, 7, false, [72, 105], 5⟩, ⟨0, 2, 8, false, [33], 5⟩,
           ⟨0, 3, 9, false, [120], 5⟩]).final ⟨40⟩).1._messages = [⟨roleUser, helloText⟩] ∧
    (stopCompletion
        (runTurn (startCompletion (textEngine false 4) helloText ⟨20, 0, [1, 2]⟩).1
          [⟨0, 1, 7, false, [72, 105], 5⟩, ⟨0, 2, 8, false, [33], 5⟩,
           ⟨0, 3, 9, false, [120], 5⟩]).final ⟨40⟩).1._messages ≠
      [⟨roleUser, helloText⟩, ⟨roleAssistant, [72, 105, 33]⟩] := by
  decide

/-! ## C4 — context accounting -/

theorem decodedMax_ge (batch : List BatchEntry) : ∀ top : Int, top ≤ decodedMax top batch := by
  induction batch with
  | nil => intro top; exact le_refl _
  | cons e es ih =>
    intro top
    simp only [decodedMax, List.foldl_cons]
    exact le_trans (le_max_left _ _) (ih (max top e.pos))

theorem decodedMax_le (batch : List BatchEntry) (bound : Int) :
    ∀ top : Int, top ≤ bound → (∀ e ∈ batch, e.pos ≤ bound) → decodedMax top batch ≤ bound := by
  induction batch with
  | nil => intro top h _; exact h
  | cons e es ih =>
    intro top h hb
    simp only [decodedMax, List.foldl_cons]
    exact ih (max top e.pos) (max_le h (hb e (List.mem_cons_self _ _)))
      (fun e' he' => hb e' (List.mem_cons_of_mem _ he'))

theorem promptBatchFrom_pos (n : Nat) (tokens : List Int) :
    ∀ i : Nat, ∀ e ∈ promptBatchFrom n i tokens, e.pos + 1 ≤ ((i + tokens.length : Nat) : Int) := by
  induction tokens with
  | nil => intro i e he; simp [promptBatchFrom] at he
  | cons t ts ih =>
    intro i e he
    simp only [promptBatchFrom, List.mem_cons] at he
    rcases he with he | he
    · subst he
      have := toInt32_le i
      simp only [List.length_cons]
      push_cast
      omega
    · have := ih (i + 1) e he
      simp only [List.length_cons]
      push_cast at this ⊢
      omega

theorem startCompletion_frame (s : Engine) (q : List Nat) (rp : StartReply) :
    (startCompletion s q rp).1._nCtxUsed = s._nCtxUsed ∧
    (startCompletion s q rp).1.contextSize = s.contextSize ∧
    ((startCompletion s q rp).1._batch = s._batch ∨
     (startCompletion s q rp).1._batch = some (promptBatch rp.tokens)) := by
  unfold startCompletion startCompletionHistory addChatMessage
  simp only
  split_ifs <;> simp

theorem completionLoop_contextSize (s : Engine) (rp : StepReply) :
    (completionLoop s rp).1.contextSize = s.contextSize := by
  cases hs : reachesSampling s rp with
  | false =>
    obtain ⟨_, b, n, hst⟩ := completionLoop_not_sampled s rp hs
    rw [hst]
  | true =>
    rw [completionLoop_sampled s rp hs]
    unfold detokenizeAndEmit addChatMessage afterSampling
    simp only
    split_ifs <;> rfl

theorem completionLoop_guard_fails (s : Engine) (rp : StepReply)
    (h : (s._ctx && s._sampler) = false ∨ s._batch = none) :
    completionLoop s rp = (s, .ok EOG) := by
  unfold completionLoop
  rcases h with h | h
  · have hg : (!s._ctx || s._batch.isNone || !s._sampler) = true := by
      cases hc : s._ctx <;> cases hp : s._sampler <;> simp_all
    rw [if_pos hg]
  · have hg : (!s._ctx || s._batch.isNone || !s._sampler) = true := by
      simp [h]
    rw [if_pos hg]

theorem completionLoop_decoded (s : Engine) (rp : StepReply) (batch : List BatchEntry)
    (hg : (s._ctx && s._sampler) = true) (hb : s._batch = some batch) (h0 : rp.decodeRes = 0) :
    completionLoop s rp = sampleAndEmit { s with _batch := some [] } rp := by
  simp only [Bool.and_eq_true] at hg
  obtain ⟨hctx, hsampler⟩ := hg
  by_cases hl : batch.length > 0
  · simp [completionLoop, hctx, hsampler, hb, hl, h0]
  · have hnil : batch = [] := by
      cases batch with
      | nil => rfl
      | cons a l => simp at hl
    subst hnil
    have hs : ({ s with _batch := some [] } : Engine) = s := by
      cases s
      simp_all
    rw [hs]
    simp [completionLoop, hctx, hsampler, hb]

theorem sampleAndEmit_full (s : Engine) (rp : StepReply)
    (h : rp.posMax + 1 ≥ toInt32 s.contextSize) :
    sampleAndEmit s rp = ({ s with _nCtxUsed := rp.posMax + 1 }, .ok EOG) := by
  simp [sampleAndEmit, h]

theorem sampleAndEmit_room (s : Engine) (rp : StepReply)
    (h : rp.posMax + 1 < toInt32 s.contextSize) :
    (sampleAndEmit s rp).1._nCtxUsed = rp.posMax + 1 ∧
    (sampleAndEmit s rp).1.contextSize = s.contextSize ∧
    ((sampleAndEmit s rp).1._batch = s._batch ∨
     (sampleAndEmit s rp).1._batch =
        s._batch.map (fun b => b ++ [⟨rp.token, rp.posMax + 1, 0, true⟩])) := by
  have hge : ¬ (rp.posMax + 1 ≥ toInt32 s.contextSize) := by omega
  unfold sampleAndEmit detokenizeAndEmit addChatMessage
  simp only [hge, if_false]
  split_ifs <;> simp

/-- One `completionLoop` call with a successful decode, against the cache. -/
theorem completionLoopOnCache_inv (s : Engine) (top : Int) (rp : StepReply)
    (hinv : CacheInv s top) (h0 : rp.decodeRes = 0) :
    CacheInv (completionLoopOnCache s top rp).1.1 (completionLoopOnCache s top rp).2 ∧
    (completionLoopOnCache s top rp).1.1.contextSize = s.contextSize ∧
    s._nCtxUsed ≤ (completionLoopOnCache s top rp).1.1._nCtxUsed ∧
    ((completionLoopOnCache s top rp).1.1._nCtxUsed ≥ (s.contextSize : Int) →
      (completionLoopOnCache s top rp).1.2 = .ok EOG ∧
      (completionLoopOnCache s top rp).1.1.samplerAccepted = s.samplerAccepted ∧
      (completionLoopOnCache s top rp).1.1._messages = s._messages ∧
      (completionLoopOnCache s top rp).1.1._response = s._response ∧
      (completionLoopOnCache s top rp).1.1._cacheResponseTokens = s._cacheResponseTokens) := by
  obtain ⟨hn, htop, hbatch⟩ := hinv
  unfold completionLoopOnCache
  simp only
  by_cases hg : (s._ctx && s._sampler) = true
  · cases hb : s._batch with
    | none =>
      have hc : cacheAfterDecode s top rp = top := by simp [cacheAfterDecode, hb]
      rw [hc, completionLoop_guard_fails s _ (Or.inr hb)]
      exact ⟨⟨hn, htop, hbatch⟩, rfl, le_refl _, fun _ => ⟨rfl, rfl, rfl, rfl, rfl⟩⟩
    | some batch =>
      have hc : cacheAfterDecode s top rp = decodedMax top batch := by
        simp [cacheAfterDecode, hg, hb, h0]
      have hge := decodedMax_ge batch top
      have hle : decodedMax top batch ≤ (s.contextSize : Int) - 1 :=
        decodedMax_le batch _ top (by omega)
          (fun e he => by have := hbatch batch hb e he; omega)
      have hcast := toInt32_le s.contextSize
      rw [hc, completionLoop_decoded s { rp with posMax := decodedMax top batch } batch hg hb h0]
      by_cases hfull : decodedMax top batch + 1 ≥ toInt32 s.contextSize
      · rw [sampleAndEmit_full { s with _batch := some [] }
          { rp with posMax := decodedMax top batch } hfull]
        refine ⟨⟨le_refl _, by simpa using (by omega : decodedMax top batch + 1 ≤ (s.contextSize : Int)),
          ?_⟩, rfl, by simpa using (by omega : s._nCtxUsed ≤ decodedMax top batch + 1),
          fun _ => ⟨rfl, rfl, rfl, rfl, rfl⟩⟩
        intro b hb' e he
        simp only [Option.some.injEq] at hb'
        subst hb'
        simp at he
      · have hroom : decodedMax top batch + 1 < toInt32 s.contextSize := by omega
        obtain ⟨k1, k2, k3⟩ := sampleAndEmit_room { s with _batch := some [] }
          { rp with posMax := decodedMax top batch } hroom
        simp only at k1 k2 k3
        refine ⟨⟨by rw [k1], by rw [k2]; omega, ?_⟩, k2, by rw [k1]; omega, ?_⟩
        · intro b hb' e he
          rw [k2]
          rcases k3 with k3 | k3
          · rw [k3] at hb'
            simp only [Option.some.injEq] at hb'
            subst hb'
            simp at he
          · rw [k3] at hb'
            simp only [Option.map_some', List.nil_append, Option.some.injEq] at hb'
            subst hb'
            simp only [List.mem_singleton] at he
            subst he
            simp only
            omega
        · intro hctx
          rw [k1] at hctx
          omega
  · have hgf : (s._ctx && s._sampler) = false := by simpa using hg
    have hc : cacheAfterDecode s top rp = top := by simp [cacheAfterDecode, hgf]
    rw [hc, completionLoop_guard_fails s _ (Or.inl hgf)]
    exact ⟨⟨hn, htop, hbatch⟩, rfl, le_refl _, fun _ => ⟨rfl, rfl, rfl, rfl, rfl⟩⟩

theorem performOnCache_inv (st : Engine × Int) (c : TurnCall) (hinv : CacheInv st.1 st.2)
    (hc : successfulCall st.1.contextSize c) :
    CacheInv (performOnCache st c).1 (performOnCache st c).2 ∧
    (performOnCache st c).1.contextSize = st.1.contextSize ∧
    st.1._nCtxUsed ≤ (performOnCache st c).1._nCtxUsed := by
  cases c with
  | start q rp =>
    obtain ⟨f1, f2, f3⟩ := startCompletion_frame st.1 q rp
    obtain ⟨hn, htop, hbatch⟩ := hinv
    simp only [performOnCache]
    refine ⟨⟨by rw [f1]; exact hn, by rw [f2]; exact htop, ?_⟩, f2, by rw [f1]⟩
    intro b hb e he
    rw [f2]
    rcases f3 with f3 | f3
    · exact hbatch b (f3 ▸ hb) e he
    · rw [f3] at hb
      simp only [Option.some.injEq] at hb
      subst hb
      have := promptBatchFrom_pos rp.tokens.length rp.tokens 0 e he
      have hlen : rp.tokens.length ≤ st.1.contextSize := hc
      push_cast at this
      omega
  | step rp =>
    obtain ⟨i1, i2, i3, _⟩ := completionLoopOnCache_inv st.1 st.2 rp hinv hc
    exact ⟨i1, i2, i3⟩

theorem performAllOnCache_inv (calls : List TurnCall) :
    ∀ st : Engine × Int, CacheInv st.1 st.2 →
      (∀ c ∈ calls, successfulCall st.1.contextSize c) →
      CacheInv (performAllOnCache st calls).1 (performAllOnCache st calls).2 ∧
      (performAllOnCache st calls).1.contextSize = st.1.contextSize ∧
      st.1._nCtxUsed ≤ (performAllOnCache st calls).1._nCtxUsed := by
  induction calls with
  | nil => intro st h _; exact ⟨h, rfl, le_refl _⟩
  | cons c cs ih =>
    intro st hinv hcs
    obtain ⟨j1, j2, j3⟩ := performOnCache_inv st c hinv (hcs c (List.mem_cons_self _ _))
    have hcs' : ∀ c' ∈ cs, successfulCall (performOnCache st c).1.contextSize c' := by
      intro c' hc'
      rw [j2]
      exact hcs c' (List.mem_cons_of_mem _ hc')
    obtain ⟨k1, k2, k3⟩ := ih (performOnCache st c) j1 hcs'
    exact ⟨k1, k2.trans j2, le_trans j3 k3⟩

/-- C4: take an engine and a backend memory that agree (`CacheInv`), a backend that
answers the position query with the highest position decoded so far, and any run of
`startCompletion` / `completionLoop` calls whose decodes all succeed (status `0`, prompts
within the batch capacity `contextSize`).  Then at every call of the run the counter
`_nCtxUsed` does not decrease and stays at most `contextSize`; and a `completionLoop` call
after which the counter is at or above `contextSize` returns `"[EOG]"` with no token
sampled and history, response and pending buffer untouched, so a chunk is only ever
emitted while the counter is below `contextSize`. -/
theorem C4_context_accounting (s0 : Engine) (top0 : Int) (calls : List TurnCall) (c : TurnCall)
    (hinv : CacheInv s0 top0)
    (hcalls : ∀ c' ∈ calls, successfulCall s0.contextSize c')
    (hc : successfulCall s0.contextSize c) :
    s0._nCtxUsed ≤ (performAllOnCache (s0, top0) calls).1._nCtxUsed ∧
    (performAllOnCache (s0, top0) calls).1._nCtxUsed ≤
      (performOnCache (performAllOnCache (s0, top0) calls) c).1._nCtxUsed ∧
    (performOnCache (performAllOnCache (s0, top0) calls) c).1._nCtxUsed ≤ (s0.contextSize : Int) ∧
    ∀ rp : StepReply, c = .step rp →
      (completionLoopOnCache (performAllOnCache (s0, top0) calls).1
          (performAllOnCache (s0, top0) calls).2 rp).1.1._nCtxUsed ≥ (s0.contextSize : Int) →
      (completionLoopOnCache (performAllOnCache (s0, top0) calls).1
          (performAllOnCache (s0, top0) calls).2 rp).1.2 = .ok EOG ∧
      (completionLoopOnCache (performAllOnCache (s0, top0) calls).1
          (performAllOnCache (s0, top0) calls).2 rp).1.1.samplerAccepted =
        (performAllOnCache (s0, top0) calls).1.samplerAccepted ∧
      (completionLoopOnCache (performAllOnCache (s0, top0) calls).1
          (performAllOnCache (s0, top0) calls).2 rp).1.1._response =
        (performAllOnCache (s0, top0) calls).1._response := by
  obtain ⟨k1, k2, k3⟩ := performAllOnCache_inv calls (s0, top0) hinv hcalls
  simp only at k2 k3
  have hc' : successfulCall (performAllOnCache (s0, top0) calls).1.contextSize c := by
    rw [k2]; exact hc
  obtain ⟨j1, j2, j3⟩ := performOnCache_inv _ c k1 hc'
  refine ⟨k3, j3, ?_, ?_⟩
  · obtain ⟨a1, a2, _⟩ := j1
    rw [j2, k2] at a2
    omega
  · intro rp hrp hfull
    subst hrp
    obtain ⟨_, _, _, i4⟩ := completionLoopOnCache_inv _ _ rp k1 hc'
    rw [k2] at i4
    obtain ⟨o1, o2, _, o4, _⟩ := i4 hfull
    exact ⟨o1, o2, o4⟩

/-- C4 on a context of four positions: a two-token prompt, two generated tokens, and the
call at which the counter reaches `4`, which returns the marker. -/
theorem C4_context_accounting_witness :
    (performAllOnCache (textEngine true 4, -1)
        [.start helloText ⟨20, 0, [1, 2]⟩, .step ⟨0, 0, 7, false, [72, 105], 5⟩,
         .step ⟨0, 0, 8, false, [33], 5⟩]).1._nCtxUsed = 3 ∧
    (performOnCache
        (performAllOnCache (textEngine true 4, -1)
          [.start helloText ⟨20, 0, [1, 2]⟩, .step ⟨0, 0, 7, false, [72, 105], 5⟩,
           .step ⟨0, 0, 8, false, [33], 5⟩])
        (.step ⟨0, 0, 9, false, [120], 5⟩)).1._nCtxUsed ≤ 4 ∧
    (completionLoopOnCache
        (performAllOnCache (textEngine true 4, -1)
          [.start helloText ⟨20, 0, [1, 2]⟩, .step ⟨0, 0, 7, false, [72, 105], 5⟩,
           .step ⟨0, 0, 8, false, [33], 5⟩]).1
        (performAllOnCache (textEngine true 4, -1)
          [.start helloText ⟨20, 0, [1, 2]⟩, .step ⟨0, 0, 7, false, [72, 105], 5⟩,
           .step ⟨0, 0, 8, false, [33], 5⟩]).2
        ⟨0, 0, 9, false, [120], 5⟩).1.2 = .ok EOG :=
  have h := C4_context_accounting (textEngine true 4) (-1)
    [.start helloText ⟨20, 0, [1, 2]⟩, .step ⟨0, 0, 7, false, [72, 105], 5⟩,
     .step ⟨0, 0, 8, false, [33], 5⟩]
    (.step ⟨0, 0, 9, false, [120], 5⟩)
    ⟨by decide, by decide, fun b hb => by cases hb⟩
    (by
      intro c hc
      simp only [List.mem_cons, List.mem_singleton, List.not_mem_nil, or_false] at hc
      rcases hc with rfl | rfl | rfl <;> simp [successfulCall, textEngine, loadModel])
    (by simp [successfulCall])
  ⟨by decide, h.2.2.1, (h.2.2.2 ⟨0, 0, 9, false, [120], 5⟩ rfl (by decide)).1⟩

/-! ## C1 — what is emitted is UTF-8 -/

theorem land_ascii (b : Nat) (h : b ≤ 0x7F) : b &&& 0x80 = 0 := by
  interval_cases b <;> rfl

theorem land_lead2 (b : Nat) (h1 : 0xC2 ≤ b) (h2 : b ≤ 0xDF) :
    b &&& 0x80 ≠ 0 ∧ b &&& 0xE0 = 0xC0 := by
  interval_cases b <;> decide

theorem land_lead3 (b : Nat) (h1 : 0xE0 ≤ b) (h2 : b ≤ 0xEF) :
    b &&& 0x80 ≠ 0 ∧ b &&& 0xE0 ≠ 0xC0 ∧ b &&& 0xF0 = 0xE0 := by
  interval_cases b <;> decide

theorem land_lead4 (b : Nat) (h1 : 0xF0 ≤ b) (h2 : b ≤ 0xF4) :
    b &&& 0x80 ≠ 0 ∧ b &&& 0xE0 ≠ 0xC0 ∧ b &&& 0xF0 ≠ 0xE0 ∧ b &&& 0xF8 = 0xF0 := by
  interval_cases b <;> decide

theorem land_tail (b : Nat) (h1 : 0x80 ≤ b) (h2 : b ≤ 0xBF) : b &&& 0xC0 = 0x80 := by
  interval_cases b <;> rfl

theorem scan_ascii (b : Nat) (bs : List Nat) (h0 : b ≠ 0) (h : b ≤ 0x7F) :
    utf8Scan 0 (b :: bs) = utf8Scan 0 bs := by
  simp [utf8Scan, h0, land_ascii b h]

theorem scan_lead2 (b : Nat) (bs : List Nat) (h1 : 0xC2 ≤ b) (h2 : b ≤ 0xDF) :
    utf8Scan 0 (b :: bs) = utf8Scan 1 bs := by
  have h0 : b ≠ 0 := by omega
  obtain ⟨a1, a2⟩ := land_lead2 b h1 h2
  simp [utf8Scan, h0, a1, a2]

theorem scan_lead3 (b : Nat) (bs : List Nat) (h1 : 0xE0 ≤ b) (h2 : b ≤ 0xEF) :
    utf8Scan 0 (b :: bs) = utf8Scan 2 bs := by
  have h0 : b ≠ 0 := by omega
  obtain ⟨a1, a2, a3⟩ := land_lead3 b h1 h2
  simp [utf8Scan, h0, a1, a2, a3]

theorem scan_lead4 (b : Nat) (bs : List Nat) (h1 : 0xF0 ≤ b) (h2 : b ≤ 0xF4) :
    utf8Scan 0 (b :: bs) = utf8Scan 3 bs := by
  have h0 : b ≠ 0 := by omega
  obtain ⟨a1, a2, a3, a4⟩ := land_lead4 b h1 h2
  simp [utf8Scan, h0, a1, a2, a3, a4]

theorem scan_tail (k b : Nat) (bs : List Nat) (h1 : 0x80 ≤ b) (h2 : b ≤ 0xBF) :
    utf8Scan (k + 1) (b :: bs) = utf8Scan k bs := by
  simp [utf8Scan, land_tail b h1 h2]

theorem scan_succ_cons (k : Nat) (l : List Nat) (h : utf8Scan (k + 1) l = true) :
    ∃ b t, l = b :: t := by
  cases l with
  | nil => simp [utf8Scan] at h
  | cons b t => exact ⟨b, t, rfl⟩

theorem seq2_range (b0 b1 : Nat) (h : seq2 b0 b1 = true) :
    0xC2 ≤ b0 ∧ b0 ≤ 0xDF ∧ 0x80 ≤ b1 ∧ b1 ≤ 0xBF := by
  simp only [seq2, isTail, Bool.and_eq_true, decide_eq_true_eq] at h
  omega

theorem seq3_range (b0 b1 b2 : Nat) (h : seq3 b0 b1 b2 = true) :
    0xE0 ≤ b0 ∧ b0 ≤ 0xEF ∧ 0x80 ≤ b1 ∧ b1 ≤ 0xBF ∧ 0x80 ≤ b2 ∧ b2 ≤ 0xBF := by
  simp only [seq3, isTail, Bool.and_eq_true, Bool.or_eq_true, decide_eq_true_eq] at h
  omega

theorem seq4_range (b0 b1 b2 b3 : Nat) (h : seq4 b0 b1 b2 b3 = true) :
    0xF0 ≤ b0 ∧ b0 ≤ 0xF4 ∧ 0x80 ≤ b1 ∧ b1 ≤ 0xBF ∧ 0x80 ≤ b2 ∧ b2 ≤ 0xBF ∧
      0x80 ≤ b3 ∧ b3 ≤ 0xBF := by
  simp only [seq4, isTail, Bool.and_eq_true, Bool.or_eq_true, decide_eq_true_eq] at h
  omega

theorem wf_ascii (b : Nat) (t : List Nat) (h : b ≤ 0x7F) :
    wellFormedUtf8 (b :: t) = wellFormedUtf8 t := by
  rw [wellFormedUtf8.eq_def]
  simp only [h, if_true]

theorem wf_seq2 (b0 b1 : Nat) (t : List Nat) (h : seq2 b0 b1 = true) :
    wellFormedUtf8 (b0 :: b1 :: t) = wellFormedUtf8 t := by
  have hr := seq2_range b0 b1 h
  have h0 : ¬ b0 ≤ 0x7F := by omega
  rw [wellFormedUtf8.eq_def]
  simp only [h0, h, if_true, if_false]

theorem seq2_false_of_ge (b0 b1 : Nat) (h : 0xE0 ≤ b0) : seq2 b0 b1 = false := by
  cases hs : seq2 b0 b1 with
  | false => rfl
  | true => have := seq2_range b0 b1 hs; omega

theorem seq3_false_of_ge (b0 b1 b2 : Nat) (h : 0xF0 ≤ b0) : seq3 b0 b1 b2 = false := by
  cases hs : seq3 b0 b1 b2 with
  | false => rfl
  | true => have := seq3_range b0 b1 b2 hs; omega

theorem wf_seq3 (b0 b1 b2 : Nat) (t : List Nat) (h : seq3 b0 b1 b2 = true) :
    wellFormedUtf8 (b0 :: b1 :: b2 :: t) = wellFormedUtf8 t := by
  have hr := seq3_range b0 b1 b2 h
  have h0 : ¬ b0 ≤ 0x7F := by omega
  rw [wellFormedUtf8.eq_def]
  simp only [h0, seq2_false_of_ge b0 b1 hr.1, h, if_true, Bool.false_eq_true, if_false]

theorem wf_seq4 (b0 b1 b2 b3 : Nat) (t : List Nat) (h : seq4 b0 b1 b2 b3 = true) :
    wellFormedUtf8 (b0 :: b1 :: b2 :: b3 :: t) = wellFormedUtf8 t := by
  have hr := seq4_range b0 b1 b2 b3 h
  have h0 : ¬ b0 ≤ 0x7F := by omega
  rw [wellFormedUtf8.eq_def]
  simp only [h0, seq2_false_of_ge b0 b1 (by omega), seq3_false_of_ge b0 b1 b2 hr.1, h, if_true,
    Bool.false_eq_true, if_false]

/-- How a well-formed string starts. -/
theorem wf_cons_cases (b0 : Nat) (t : List Nat) (h : wellFormedUtf8 (b0 :: t) = true) :
    (b0 ≤ 0x7F ∧ wellFormedUtf8 t = true) ∨
    (∃ b1 t1, t = b1 :: t1 ∧ seq2 b0 b1 = true ∧ wellFormedUtf8 t1 = true) ∨
    (∃ b1 b2 t2, t = b1 :: b2 :: t2 ∧ seq3 b0 b1 b2 = true ∧ wellFormedUtf8 t2 = true) ∨
    (∃ b1 b2 b3 t3, t = b1 :: b2 :: b3 :: t3 ∧ seq4 b0 b1 b2 b3 = true ∧
      wellFormedUtf8 t3 = true) := by
  by_cases h0 : b0 ≤ 0x7F
  · left
    rw [wf_ascii b0 t h0] at h
    exact ⟨h0, h⟩
  · right
    rw [wellFormedUtf8.eq_def] at h
    simp only [h0, if_false] at h
    cases t with
    | nil => simp at h
    | cons b1 t1 =>
      simp only at h
      by_cases h2 : seq2 b0 b1 = true
      · left
        rw [if_pos h2] at h
        exact ⟨b1, t1, rfl, h2, h⟩
      · right
        rw [if_neg h2] at h
        cases t1 with
        | nil => simp at h
        | cons b2 t2 =>
          simp only at h
          by_cases h3 : seq3 b0 b1 b2 = true
          · left
            rw [if_pos h3] at h
            exact ⟨b1, b2, t2, rfl, h3, h⟩
          · right
            rw [if_neg h3] at h
            cases t2 with
            | nil => simp at h
            | cons b3 t3 =>
              simp only at h
              by_cases h4 : seq4 b0 b1 b2 b3 = true
              · rw [if_pos h4] at h
                exact ⟨b1, b2, b3, t3, rfl, h4, h⟩
              · rw [if_neg h4] at h
                cases h

/-- A prefix of a well-formed string that passes the engine's scan ends on a character
boundary: it is well-formed, and so is the rest. -/
theorem scan_prefix (n : Nat) :
    ∀ p q : List Nat, p.length ≤ n → 0 ∉ p → wellFormedUtf8 (p ++ q) = true →
      utf8Scan 0 p = true → wellFormedUtf8 p = true ∧ wellFormedUtf8 q = true := by
  induction n with
  | zero =>
    intro p q hlen _ hw _
    have hp : p = [] := List.length_eq_zero.mp (Nat.le_zero.mp hlen)
    subst hp
    exact ⟨rfl, hw⟩
  | succ n ih =>
    intro p q hlen hnul hw hscan
    cases p with
    | nil => exact ⟨rfl, hw⟩
    | cons b0 p0 =>
      have hb0 : b0 ≠ 0 := fun e => hnul (e ▸ List.mem_cons_self _ _)
      have hnul0 : 0 ∉ p0 := fun h => hnul (List.mem_cons_of_mem _ h)
      simp only [List.length_cons] at hlen
      rw [List.cons_append] at hw
      rcases wf_cons_cases b0 (p0 ++ q) hw with
        ⟨h0, hw1⟩ | ⟨b1, t1, ht, h2, hw1⟩ | ⟨b1, b2, t2, ht, h3, hw1⟩ |
        ⟨b1, b2, b3, t3, ht, h4, hw1⟩
      · rw [scan_ascii b0 p0 hb0 h0] at hscan
        obtain ⟨i1, i2⟩ := ih p0 q (by omega) hnul0 hw1 hscan
        exact ⟨by rw [wf_ascii b0 p0 h0]; exact i1, i2⟩
      · obtain ⟨r1, r2, r3, r4⟩ := seq2_range b0 b1 h2
        rw [scan_lead2 b0 p0 r1 r2] at hscan
        obtain ⟨c1, p1, hp1⟩ := scan_succ_cons 0 p0 hscan
        subst hp1
        rw [List.cons_append] at ht
        injection ht with e1 e2
        subst e1
        rw [scan_tail 0 c1 p1 r3 r4] at hscan
        have hnul1 : 0 ∉ p1 := fun h => hnul0 (List.mem_cons_of_mem _ h)
        simp only [List.length_cons] at hlen
        obtain ⟨i1, i2⟩ := ih p1 q (by omega) hnul1 (e2 ▸ hw1) hscan
        exact ⟨by rw [wf_seq2 b0 c1 p1 h2]; exact i1, i2⟩
      · obtain ⟨r1, r2, r3, r4, r5, r6⟩ := seq3_range b0 b1 b2 h3
        rw [scan_lead3 b0 p0 r1 r2] at hscan
        obtain ⟨c1, p1, hp1⟩ := scan_succ_cons 1 p0 hscan
        subst hp1
        rw [List.cons_append] at ht
        injection ht with e1 e2
        subst e1
        rw [scan_tail 1 c1 p1 r3 r4] at hscan
        obtain ⟨c2, p2, hp2⟩ := scan_succ_cons 0 p1 hscan
        subst hp2
        rw [List.cons_append] at e2
        injection e2 with e3 e4
        subst e3
        rw [scan_tail 0 c2 p2 r5 r6] at hscan
        have hnul2 : 0 ∉ p2 :=
          fun h => hnul0 (List.mem_cons_of_mem _ (List.mem_cons_of_mem _ h))
        simp only [List.length_cons] at hlen
        obtain ⟨i1, i2⟩ := ih p2 q (by omega) hnul2 (e4 ▸ hw1) hscan
        exact ⟨by rw [wf_seq3 b0 c1 c2 p2 h3]; exact i1, i2⟩
      · obtain ⟨r1, r2, r3, r4, r5, r6, r7, r8⟩ := seq4_range b0 b1 b2 b3 h4
        rw [scan_lead4 b0 p0 r1 r2] at hscan
        obtain ⟨c1, p1, hp1⟩ := scan_succ_cons 2 p0 hscan
        subst hp1
        rw [List.cons_append] at ht
        injection ht with e1 e2
        subst e1
        rw [scan_tail 2 c1 p1 r3 r4] at hscan
        obtain ⟨c2, p2, hp2⟩ := scan_succ_cons 1 p1 hscan
        subst hp2
        rw [List.cons_append] at e2
        injection e2 with e3 e4
        subst e3
        rw [scan_tail 1 c2 p2 r5 r6] at hscan
        obtain ⟨c3, p3, hp3⟩ := scan_succ_cons 0 p2 hscan
        subst hp3
        rw [List.cons_append] at e4
        injection e4 with e5 e6
        subst e5
        rw [scan_tail 0 c3 p3 r7 r8] at hscan
        have hnul3 : 0 ∉ p3 := fun h =>
          hnul0 (List.mem_cons_of_mem _ (List.mem_cons_of_mem _ (List.mem_cons_of_mem _ h)))
        simp only [List.length_cons] at hlen
        obtain ⟨i1, i2⟩ := ih p3 q (by omega) hnul3 (e6 ▸ hw1) hscan
        exact ⟨by rw [wf_seq4 b0 c1 c2 c3 p3 h4]; exact i1, i2⟩

theorem wf_append (n : Nat) :
    ∀ a b : List Nat, a.length ≤ n → wellFormedUtf8 a = true → wellFormedUtf8 b = true →
      wellFormedUtf8 (a ++ b) = true := by
  induction n with
  | zero =>
    intro a b hlen _ hb
    have ha : a = [] := List.length_eq_zero.mp (Nat.le_zero.mp hlen)
    subst ha
    exact hb
  | succ n ih =>
    intro a b hlen ha hb
    cases a with
    | nil => exact hb
    | cons b0 t =>
      simp only [List.length_cons] at hlen
      rcases wf_cons_cases b0 t ha with
        ⟨h0, hw1⟩ | ⟨b1, t1, ht, h2, hw1⟩ | ⟨b1, b2, t2, ht, h3, hw1⟩ |
        ⟨b1, b2, b3, t3, ht, h4, hw1⟩
      · rw [List.cons_append, wf_ascii b0 _ h0]
        exact ih t b (by omega) hw1 hb
      · subst ht
        simp only [List.length_cons] at hlen
        rw [List.cons_append, List.cons_append, wf_seq2 b0 b1 _ h2]
        exact ih t1 b (by omega) hw1 hb
      · subst ht
        simp only [List.length_cons] at hlen
        rw [List.cons_append, List.cons_append, List.cons_append, wf_seq3 b0 b1 b2 _ h3]
        exact ih t2 b (by omega) hw1 hb
      · subst ht
        simp only [List.length_cons] at hlen
        rw [List.cons_append, List.cons_append, List.cons_append, List.cons_append,
          wf_seq4 b0 b1 b2 b3 _ h4]
        exact ih t3 b (by omega) hw1 hb

theorem removeCR_cons_keep (b : Nat) (t : List Nat) (h : b ≠ 13) :
    removeCR (b :: t) = b :: removeCR t := by
  simp [removeCR, h]

theorem wf_removeCR (n : Nat) :
    ∀ l : List Nat, l.length ≤ n → wellFormedUtf8 l = true →
      wellFormedUtf8 (removeCR l) = true := by
  induction n with
  | zero =>
    intro l hlen _
    have hl : l = [] := List.length_eq_zero.mp (Nat.le_zero.mp hlen)
    subst hl
    rfl
  | succ n ih =>
    intro l hlen hl
    cases l with
    | nil => rfl
    | cons b0 t =>
      simp only [List.length_cons] at hlen
      rcases wf_cons_cases b0 t hl with
        ⟨h0, hw1⟩ | ⟨b1, t1, ht, h2, hw1⟩ | ⟨b1, b2, t2, ht, h3, hw1⟩ |
        ⟨b1, b2, b3, t3, ht, h4, hw1⟩
      · by_cases hcr : b0 = 13
        · subst hcr
          have : removeCR (13 :: t) = removeCR t := by simp [removeCR]
          rw [this]
          exact ih t (by omega) hw1
        · rw [removeCR_cons_keep b0 t hcr, wf_ascii b0 _ h0]
          exact ih t (by omega) hw1
      · subst ht
        obtain ⟨r1, r2, r3, r4⟩ := seq2_range b0 b1 h2
        simp only [List.length_cons] at hlen
        rw [removeCR_cons_keep b0 _ (by omega), removeCR_cons_keep b1 _ (by omega),
          wf_seq2 b0 b1 _ h2]
        exact ih t1 (by omega) hw1
      · subst ht
        obtain ⟨r1, r2, r3, r4, r5, r6⟩ := seq3_range b0 b1 b2 h3
        simp only [List.length_cons] at hlen
        rw [removeCR_cons_keep b0 _ (by omega), removeCR_cons_keep b1 _ (by omega),
          removeCR_cons_keep b2 _ (by omega), wf_seq3 b0 b1 b2 _ h3]
        exact ih t2 (by omega) hw1
      · subst ht
        obtain ⟨r1, r2, r3, r4, r5, r6, r7, r8⟩ := seq4_range b0 b1 b2 b3 h4
        simp only [List.length_cons] at hlen
        rw [removeCR_cons_keep b0 _ (by omega), removeCR_cons_keep b1 _ (by omega),
          removeCR_cons_keep b2 _ (by omega), removeCR_cons_keep b3 _ (by omega),
          wf_seq4 b0 b1 b2 b3 _ h4]
        exact ih t3 (by omega) hw1

theorem removeCR_append (a b : List Nat) : removeCR (a ++ b) = removeCR a ++ removeCR b := by
  simp [removeCR]

theorem removeCR_no_nul (l : List Nat) (h : 0 ∉ l) : 0 ∉ removeCR l := by
  intro hm
  exact h (List.mem_of_mem_filter hm)

theorem wf_flatten (chunks : List (List Nat))
    (h : ∀ chunk ∈ chunks, wellFormedUtf8 chunk = true) :
    wellFormedUtf8 chunks.flatten = true := by
  induction chunks with
  | nil => rfl
  | cons c cs ih =>
    rw [List.flatten_cons]
    exact wf_append c.length c _ (le_refl _) (h c (List.mem_cons_self _ _))
      (ih (fun c' hc' => h c' (List.mem_cons_of_mem _ hc')))

theorem completionLoop_chunk_valid (s : Engine) (rp : StepReply) (chunk : List Nat)
    (h : (completionLoop s rp).2 = .ok chunk) : _isValidUtf8 (c_str chunk) = true := by
  have heog : _isValidUtf8 (c_str EOG) = true := by decide
  cases hs : reachesSampling s rp with
  | false =>
    obtain ⟨hout, _⟩ := completionLoop_not_sampled s rp hs
    rcases hout with hout | ⟨what, hout⟩
    · rw [hout] at h
      injection h with h
      rw [← h]
      exact heog
    · rw [hout] at h
      cases h
  | true =>
    rw [completionLoop_sampled s rp hs] at h
    cases he : rp.isEog with
    | true =>
      rw [he] at h
      simp only [if_true] at h
      injection h with h
      rw [← h]
      exact heog
    | false =>
      rw [he] at h
      simp only [Bool.false_eq_true, if_false] at h
      cases hv : _isValidUtf8
          (c_str ((afterSampling s rp)._cacheResponseTokens ++ removeCR rp.piece)) with
      | true =>
        rw [(detokenizeAndEmit_valid _ rp hv).1] at h
        injection h with h
        rw [← h]
        exact hv
      | false =>
        rw [(detokenizeAndEmit_invalid _ rp hv).1] at h
        injection h with h
        rw [← h]
        decide

theorem runTurn_engine_valid (rps : List StepReply) :
    ∀ s : Engine, ∀ chunk ∈ (runTurn s rps).chunks, _isValidUtf8 (c_str chunk) = true := by
  induction rps with
  | nil =>
    intro s chunk hc
    simp [runTurn] at hc
  | cons rp rps ih =>
    intro s chunk hc
    rcases hcl : completionLoop s rp with ⟨s1, out⟩
    cases out with
    | threw what =>
      rw [runTurn_cons_threw s s1 rp rps what hcl] at hc
      simp at hc
    | ok c =>
      by_cases hne : c = EOG
      · subst hne
        rw [runTurn_cons_eog s s1 rp rps hcl] at hc
        simp at hc
      · rw [runTurn_cons_chunk s s1 rp rps c hcl hne] at hc
        simp only [List.mem_cons] at hc
        rcases hc with hc | hc
        · subst hc
          exact completionLoop_chunk_valid s rp chunk (by rw [hcl])
        · exact ih s1 chunk hc

theorem runTurn_wellFormed (rps : List StepReply) :
    ∀ s : Engine,
      wellFormedUtf8 (s._cacheResponseTokens ++ removeCR (pieceStream rps)) = true →
      0 ∉ s._cacheResponseTokens ++ removeCR (pieceStream rps) →
      ∀ chunk ∈ (runTurn s rps).chunks, wellFormedUtf8 chunk = true := by
  induction rps with
  | nil =>
    intro s _ _ chunk hc
    simp [runTurn] at hc
  | cons rp rps ih =>
    intro s hw hnul chunk hc
    have hstream : s._cacheResponseTokens ++ removeCR (pieceStream (rp :: rps)) =
        (s._cacheResponseTokens ++ removeCR rp.piece) ++ removeCR (pieceStream rps) := by
      simp [pieceStream, removeCR_append, List.append_assoc]
    rw [hstream] at hw hnul
    cases hs : reachesSampling s rp with
    | false =>
      obtain ⟨hout, b, n, hst⟩ := completionLoop_not_sampled s rp hs
      rcases hout with hout | ⟨what, hout⟩
      · rw [runTurn_cons_eog s _ rp rps (Prod.ext hst hout)] at hc
        simp at hc
      · rw [runTurn_cons_threw s _ rp rps what (Prod.ext hst hout)] at hc
        simp at hc
    | true =>
      have hcl := completionLoop_sampled s rp hs
      cases he : rp.isEog with
      | true =>
        rw [he] at hcl
        simp only [if_true] at hcl
        rw [runTurn_cons_eog s _ rp rps hcl] at hc
        simp at hc
      | false =>
        rw [he] at hcl
        simp only [Bool.false_eq_true, if_false] at hcl
        have hcache : (afterSampling s rp)._cacheResponseTokens = s._cacheResponseTokens := rfl
        cases hv : _isValidUtf8
            (c_str ((afterSampling s rp)._cacheResponseTokens ++ removeCR rp.piece)) with
        | true =>
          obtain ⟨h1, _, h3, _, _⟩ := detokenizeAndEmit_valid _ rp hv
          rw [hcache] at h1 hv
          have hnb : 0 ∉ s._cacheResponseTokens ++ removeCR rp.piece :=
            fun h => hnul (List.mem_append_left _ h)
          rw [c_str_of_no_nul _ hnb] at hv
          obtain ⟨w1, w2⟩ := scan_prefix _ _ _ (le_refl _) hnb hw hv
          have hstep : completionLoop s rp =
              ((detokenizeAndEmit (afterSampling s rp) rp).1,
                .ok (s._cacheResponseTokens ++ removeCR rp.piece)) := by
            rw [hcl]
            exact Prod.ext rfl h1
          by_cases hne : s._cacheResponseTokens ++ removeCR rp.piece = EOG
          · rw [hne] at hstep
            rw [runTurn_cons_eog s _ rp rps hstep] at hc
            simp at hc
          · rw [runTurn_cons_chunk s _ rp rps _ hstep hne] at hc
            simp only [List.mem_cons] at hc
            rcases hc with hc | hc
            · rw [hc]
              exact w1
            · refine ih _ ?_ ?_ chunk hc
              · rw [h3]
                exact w2
              · rw [h3]
                exact fun h => hnul (List.mem_append_right _ h)
        | false =>
          obtain ⟨h1, _, h3, _, _⟩ := detokenizeAndEmit_invalid _ rp hv
          rw [hcache] at h3
          have hstep : completionLoop s rp =
              ((detokenizeAndEmit (afterSampling s rp) rp).1, .ok []) := by
            rw [hcl]
            exact Prod.ext rfl h1
          have hne : ([] : List Nat) ≠ EOG := by decide
          rw [runTurn_cons_chunk s _ rp rps _ hstep hne] at hc
          simp only [List.mem_cons] at hc
          rcases hc with hc | hc
          · rw [hc]
            rfl
          · refine ih _ ?_ ?_ chunk hc
            · rw [h3]
              exact hw
            · rw [h3]
              exact hnul

/-- C1 (as amended): for every backend, every chunk a turn returns before the end marker
passes the engine's own test `_isValidUtf8` (lead-byte class and number of continuation
bytes, read up to the first NUL).  When the turn starts with an empty pending buffer and
the pieces the backend returns concatenate to a well-formed UTF-8 string without NUL
bytes — however the pieces split multi-byte characters — every chunk is well-formed UTF-8
by the standard definition, and so is the concatenation of all chunks of the turn. -/
theorem C1_chunks_utf8 (s : Engine) (rps : List StepReply) :
    (∀ chunk ∈ (runTurn s rps).chunks, _isValidUtf8 (c_str chunk) = true) ∧
    (s._cacheResponseTokens = [] → wellFormedUtf8 (pieceStream rps) = true →
      0 ∉ pieceStream rps →
      (∀ chunk ∈ (runTurn s rps).chunks, wellFormedUtf8 chunk = true) ∧
      wellFormedUtf8 (runTurn s rps).chunks.flatten = true) := by
  refine ⟨runTurn_engine_valid rps s, ?_⟩
  intro hempty hwf hnul
  have hw : wellFormedUtf8 (s._cacheResponseTokens ++ removeCR (pieceStream rps)) = true := by
    rw [hempty, List.nil_append]
    exact wf_removeCR _ _ (le_refl _) hwf
  have hn : 0 ∉ s._cacheResponseTokens ++ removeCR (pieceStream rps) := by
    rw [hempty, List.nil_append]
    exact removeCR_no_nul _ hnul
  have hall := runTurn_wellFormed rps s hw hn
  exact ⟨hall, wf_flatten _ hall⟩

/-- C1 on a turn that receives `é` split over two tokens, then `"!\r"`: the chunks are the
empty chunk, `é` and `!`, all well-formed. -/
theorem C1_chunks_utf8_witness :
    (runTurn (startCompletion (textEngine true 512) helloText ⟨20, 0, [1, 2, 3]⟩).1
        [⟨0, 2, 7, false, [0xC3], 5⟩, ⟨0, 3, 8, false, [0xA9], 5⟩,
         ⟨0, 4, 9, false, [33, 13], 5⟩]).chunks = [[], [0xC3, 0xA9], [33]] ∧
    wellFormedUtf8
      (runTurn (startCompletion (textEngine true 512) helloText ⟨20, 0, [1, 2, 3]⟩).1
        [⟨0, 2, 7, false, [0xC3], 5⟩, ⟨0, 3, 8, false, [0xA9], 5⟩,
         ⟨0, 4, 9, false, [33, 13], 5⟩]).chunks.flatten = true :=
  ⟨by decide,
   ((C1_chunks_utf8 (startCompletion (textEngine true 512) helloText ⟨20, 0, [1, 2, 3]⟩).1
      [⟨0, 2, 7, false, [0xC3], 5⟩, ⟨0, 3, 8, false, [0xA9], 5⟩,
       ⟨0, 4, 9, false, [33, 13], 5⟩]).2 (by decide) (by decide) (by decide)).2⟩

/-- C1 as stated fails: a backend whose piece is the two bytes `C0 AF` (an overlong form of
`/`) gets them back as a chunk; the chunk passes `_isValidUtf8` and is not well-formed
UTF-8, and neither is the concatenation of the chunks of the turn. -/
theorem C1_counterexample :
    (runTurn (startCompletion (textEngine true 512) helloText ⟨20, 0, [1, 2, 3]⟩).1
        [⟨0, 2, 7, false, [0xC0, 0xAF], 5⟩, ⟨0, 3, 2, true, [], 5⟩]).chunks = [[0xC0, 0xAF]] ∧
    (runTurn (startCompletion (textEngine true 512) helloText ⟨20, 0, [1, 2, 3]⟩).1
        [⟨0, 2, 7, false, [0xC0, 0xAF], 5⟩, ⟨0, 3, 2, true, [], 5⟩]).ending = .sentinel ∧
    _isValidUtf8 (c_str [0xC0, 0xAF]) = true ∧
    wellFormedUtf8 [0xC0, 0xAF] = false ∧
    wellFormedUtf8
      (runTurn (startCompletion (textEngine true 512) helloText ⟨20, 0, [1, 2, 3]⟩).1
        [⟨0, 2, 7, false, [0xC0, 0xAF], 5⟩, ⟨0, 3, 2, true, [], 5⟩]).chunks.flatten = false := by
  have hchunks :
      (runTurn (startCompletion (textEngine true 512) helloText ⟨20, 0, [1, 2, 3]⟩).1
        [⟨0, 2, 7, false, [0xC0, 0xAF], 5⟩, ⟨0, 3, 2, true, [], 5⟩]).chunks = [[0xC0, 0xAF]] := by
    decide
  refine ⟨hchunks, by decide, by decide, by decide, ?_⟩
  rw [hchunks]
  decide

end LLMInference
